import Mathlib

/-!
# go-servemux: the `/time` server of `main.go`

A shallow embedding of `src/main.go` together with the parts of Go's
`net/http`, `time` and `log` packages that `main.go` calls.

* `timeHandler` and `main` are translated from `src/main.go`, and so is the
  variant in its comments that builds as written (the struct handler).
* The response writer, the request multiplexer (`ServeMux`, as of Go 1.22:
  it works on the escaped path), `cleanPath`, `NotFoundHandler`,
  `RedirectHandler` and the part of `http.Server` between the connection and
  the handler follow the behaviour of Go's `net/http` package.
* The handler is stated over any type of clock readings and any rendering
  `Time.Format`; URL rendering, HTML escaping and the status code of the
  mux's redirects are taken as parameters too (`Lib`).
* For the claims about the timestamp in the body, clock readings are `GoTime`
  values, `formatRFC1123` follows `Time.Format` for the layout
  `time.RFC1123`, and `parseRFC1123` follows `time.Parse` for that layout;
  the time-zone database of the reader is a parameter (`lookupName`).
-/

namespace GoServeMux

/-! ## Library parameters -/

/-- Functions and constants of the Go standard library that the program
reaches and that are kept abstract: `format t layout` is `t.Format(layout)`;
`urlString p q` is `(&url.URL{Path: p, RawQuery: q}).String()`;
`redirectURL old url` is the target that `http.Redirect` computes from the
request path `old` and the given `url`, as it puts it in the `Location`
header; `htmlEscape` is the escaping it uses for the body; `redirectCode` is
the status the mux redirects with (`http.StatusMovedPermanently`, 301, in
earlier releases of Go, `http.StatusTemporaryRedirect`, 307, in current
ones). -/
structure Lib (Time : Type) where
  format : Time → String → String
  urlString : String → String → String
  redirectURL : String → String → String
  htmlEscape : String → String
  redirectCode : Nat

/-- Constant `time.RFC1123` of Go's `time` package. -/
def RFC1123 : String := "Mon, 02 Jan 2006 15:04:05 MST"

/-! ## Requests, response writers, the clock -/

/-- The fields of an `http.Request` that the server has read and accepted, as
far as the server, the router and the handlers look at them. `path` is
`r.URL.Path`, `escapedPath` is `r.URL.EscapedPath()`, `rawQuery` is
`r.URL.RawQuery`, `urlHost` is `r.URL.Host`; `header` has the canonical
header names with their first value. Strings stand for Go's byte strings,
one character for each byte. -/
structure Request where
  method : String
  protoMajor : Nat
  protoMinor : Nat
  requestURI : String
  host : String
  urlHost : String
  path : String
  escapedPath : String
  rawQuery : String
  header : List (String × String)
  body : String
deriving DecidableEq, Repr

/-- State of an `http.ResponseWriter`: `status` is `none` until the header has
been written, `header` is the header map, `writes` lists the byte strings of
the `Write` calls so far, oldest first. -/
structure ResponseWriter where
  status : Option Nat
  header : List (String × String)
  writes : List String
deriving DecidableEq, Repr

namespace ResponseWriter

/-- A response writer on which nothing has happened yet. -/
def fresh : ResponseWriter := ⟨none, [], []⟩

/-- Go's `w.WriteHeader(code)`: the first call fixes the status, later calls are
ignored. -/
def WriteHeader (w : ResponseWriter) (code : Nat) : ResponseWriter :=
  match w.status with
  | none => { w with status := some code }
  | some _ => w

/-- Go's `w.Write(b)`: writes status 200 first when no header has been written,
then appends the bytes. -/
def Write (w : ResponseWriter) (b : String) : ResponseWriter :=
  let w1 := w.WriteHeader 200
  { w1 with writes := w1.writes ++ [b] }

/-- Go's `w.Header().Set(k, v)`. -/
def setHeader (w : ResponseWriter) (k v : String) : ResponseWriter :=
  { w with header := (k, v) :: w.header.filter (fun kv => kv.1 ≠ k) }

/-- Go's `w.Header().Del(k)`. -/
def delHeader (w : ResponseWriter) (k : String) : ResponseWriter :=
  { w with header := w.header.filter (fun kv => kv.1 ≠ k) }

/-- Whether the header `k` is set (`_, ok := w.Header()[k]`). -/
def hasHeader (w : ResponseWriter) (k : String) : Bool :=
  w.header.any (fun kv => kv.1 = k)

/-- The status code the client receives: 200 when the handler returns without
having written a header. -/
def statusCode (w : ResponseWriter) : Nat := w.status.getD 200

/-- The response body: all written bytes in order. -/
def bodyString (w : ResponseWriter) : String := String.join w.writes

end ResponseWriter

/-- The system clock: `now n` is the reading returned by the `n`-th call of
`time.Now()`, `reads` counts the calls made so far. -/
structure Clock (Time : Type) where
  now : Nat → Time
  reads : Nat

/-- Go's `time.Now()`: returns the current reading and advances the call count. -/
def Clock.Now {Time : Type} (c : Clock Time) : Time × Clock Time :=
  (c.now c.reads, { c with reads := c.reads + 1 })

/-- Everything a handler invocation can touch: the response writer, the
request it was handed (a pointer in Go) and the clock. -/
structure Exchange (Time : Type) where
  w : ResponseWriter
  r : Request
  clock : Clock Time

/-- Go's `http.Handler` / `http.HandlerFunc`: one invocation of `ServeHTTP`. -/
abbrev Handler (Time : Type) := Exchange Time → Exchange Time

/-! ## `timeHandler` (main.go, lines 11-16) -/

/-- Go's `func timeHandler(format string) http.HandlerFunc`. -/
def timeHandler {Time : Type} (L : Lib Time) (format : String) : Handler Time :=
  fun x =>
    let (t, clock1) := x.clock.Now
    let tm := L.format t format
    { x with w := x.w.Write ("The time is: " ++ tm), clock := clock1 }

/-! ## Path cleaning (`net/http`: `cleanPath`, `path.Clean`) -/

/-- Splits a path at every `/`; `"/a//b"` gives `["", "a", "", "b"]`. -/
def splitSlash : List Char → List (List Char)
  | [] => [[]]
  | c :: cs =>
    match splitSlash cs with
    | [] => [[c]]
    | s :: ss => if c = '/' then [] :: s :: ss else (c :: s) :: ss

/-- One step of `path.Clean` on a rooted path: `stack` holds the elements kept
so far, innermost first. Empty elements and `.` are dropped, `..` removes the
previous element (and is dropped at the root). -/
def cleanStep (stack : List (List Char)) (seg : List Char) : List (List Char) :=
  if seg = [] ∨ seg = ['.'] then stack
  else if seg = ['.', '.'] then stack.tail
  else seg :: stack

/-- Go's `path.Clean` for a path that starts with `/`. -/
def pathClean (p : List Char) : List Char :=
  '/' :: List.intercalate ['/'] ((splitSlash p).foldl cleanStep []).reverse

/-- Go's `cleanPath` of `net/http`: the canonical form of a request path, with a
trailing slash preserved. -/
def cleanPathChars (p : List Char) : List Char :=
  if p = [] then ['/']
  else
    let p1 := if p.head? ≠ some '/' then '/' :: p else p
    let np := pathClean p1
    if p1.getLast? = some '/' ∧ np ≠ ['/'] then
      if p1.length = np.length + 1 ∧ np.isPrefixOf p1 then p1 else np ++ ['/']
    else np

/-- Go's `cleanPath` on strings. -/
def cleanPath (p : String) : String := String.mk (cleanPathChars p.toList)


/-! ## Escaped paths and their segments (`net/url`, `net/http` routing) -/

/-- Whether the character is a hexadecimal digit (`ishex`). -/
def ishex (c : Char) : Bool :=
  decide ((48 ≤ c.toNat ∧ c.toNat ≤ 57) ∨ (97 ≤ c.toNat ∧ c.toNat ≤ 102) ∨
    (65 ≤ c.toNat ∧ c.toNat ≤ 70))

/-- The value of a hexadecimal digit (`unhex`). -/
def unhex (c : Char) : Nat :=
  if 48 ≤ c.toNat ∧ c.toNat ≤ 57 then c.toNat - 48
  else if 97 ≤ c.toNat ∧ c.toNat ≤ 102 then c.toNat - 97 + 10
  else if 65 ≤ c.toNat ∧ c.toNat ≤ 70 then c.toNat - 65 + 10
  else 0

/-- Go's `url.PathUnescape` on a string taken as a list of one-byte characters:
every `%XX` becomes the byte `XX`; `none` when a `%` is not followed by two
hexadecimal digits. -/
def unescapeChars : List Char → Option (List Char)
  | [] => some []
  | c :: rest =>
    if c = '%' then
      match rest with
      | h1 :: h2 :: rest2 =>
        if ishex h1 ∧ ishex h2 then
          (unescapeChars rest2).map (fun u => Char.ofNat (16 * unhex h1 + unhex h2) :: u)
        else none
      | _ => none
    else (unescapeChars rest).map (fun u => c :: u)

/-- Go's `pathUnescape` of `net/http`: the unescaped segment, or the segment
itself when it is not validly escaped. -/
def pathUnescape (seg : List Char) : List Char := (unescapeChars seg).getD seg

/-- The segments after the first one: each is unescaped, and a trailing slash
gives the final segment `/`. -/
def laterSegments : List (List Char) → List (List Char)
  | [] => []
  | [last] => if last = [] then [['/']] else [pathUnescape last]
  | x :: y :: more => pathUnescape x :: laterSegments (y :: more)

/-- The segments that repeated calls of `firstSegment` split a path into: the
first character (the initial slash) is dropped, the rest is cut at every
slash, each segment is unescaped; the path `/` is the single segment `/`, and
so is what remains of a path after its last slash. -/
def pathSegments (path : List Char) : List (List Char) :=
  if path = [] then []
  else if path = ['/'] then [['/']]
  else
    match splitSlash path.tail with
    | [] => []
    | first :: more => pathUnescape first :: laterSegments more

/-- A pattern of the kind `main.go` registers: a rooted path of literal
segments, naming either exactly that path or, with a trailing slash, the
subtree below it. -/
structure Pattern where
  segs : List (List Char)
  subtree : Bool
deriving DecidableEq, Repr

/-- Go's `parsePattern` for patterns without method, host and wildcards: the
pattern starts with `/` and has no space, tab or `{`. `none` for every other
string (the empty pattern and other malformed ones, for which the mux panics,
and patterns with a method, a host or wildcards, which are not covered
here). -/
def parsePattern (s : String) : Option Pattern :=
  match s.toList with
  | [] => none
  | c :: cs =>
    if c ≠ '/' ∨ ' ' ∈ cs ∨ '\t' ∈ cs ∨ '{' ∈ cs then none
    else
      let parts := splitSlash cs
      if parts.getLast? = some [] then some ⟨parts.dropLast.map pathUnescape, true⟩
      else some ⟨parts.map pathUnescape, false⟩

/-- Whether the pattern matches a path with the given segments: an exact
pattern matches its own segments, a subtree pattern every path that goes on
after them. -/
def Pattern.matchesSegs (p : Pattern) (segs : List (List Char)) : Bool :=
  if p.subtree then p.segs.isPrefixOf segs && decide (p.segs.length < segs.length)
  else decide (segs = p.segs)

/-! ## Standard handlers of `net/http` -/

/-- Go's `http.StatusText(code)` for the codes that occur here. -/
def StatusText (code : Nat) : String :=
  if code = 301 then "Moved Permanently"
  else if code = 302 then "Found"
  else if code = 307 then "Temporary Redirect"
  else if code = 308 then "Permanent Redirect"
  else if code = 400 then "Bad Request"
  else if code = 404 then "Not Found"
  else if code = 417 then "Expectation Failed"
  else ""

/-- Go's `http.Error(w, error, code)`. -/
def httpError (w : ResponseWriter) (error : String) (code : Nat) : ResponseWriter :=
  let w0 := w.delHeader "Content-Length"
  let w1 := w0.setHeader "Content-Type" "text/plain; charset=utf-8"
  let w2 := w1.setHeader "X-Content-Type-Options" "nosniff"
  let w3 := w2.WriteHeader code
  w3.Write (error ++ "\n")

/-- Go's `http.NotFoundHandler()`: replies `404 page not found`. -/
def NotFoundHandler {Time : Type} : Handler Time :=
  fun x => { x with w := httpError x.w "404 page not found" 404 }

/-- Go's `http.RedirectHandler(url, code)`, that is `http.Redirect`: sets
`Location`, writes the status, and for `GET` a short HTML body. -/
def RedirectHandler {Time : Type} (L : Lib Time) (url : String) (code : Nat) : Handler Time :=
  fun x =>
    let target := L.redirectURL x.r.path url
    let hadCT := x.w.hasHeader "Content-Type"
    let w1 := x.w.setHeader "Location" target
    let w2 :=
      if ¬ hadCT ∧ (x.r.method = "GET" ∨ x.r.method = "HEAD") then
        w1.setHeader "Content-Type" "text/html; charset=utf-8"
      else w1
    let w3 := w2.WriteHeader code
    let w4 :=
      if ¬ hadCT ∧ x.r.method = "GET" then
        w3.Write ("<a href=\"" ++ L.htmlEscape target ++ "\">" ++ StatusText code ++ "</a>.\n\n")
      else w3
    { x with w := w4 }

/-! ## `http.ServeMux` -/

/-- The route table of an `http.ServeMux`: registered patterns with their
handlers. -/
structure ServeMux (Time : Type) where
  routes : List (String × Handler Time)

namespace ServeMux

variable {Time : Type}

/-- Go's `http.NewServeMux()`. -/
def NewServeMux : ServeMux Time := ⟨[]⟩

/-- The registered patterns. -/
def patterns (mux : ServeMux Time) : List String := mux.routes.map Prod.fst

/-- Go's `mux.Handle(pattern, handler)`; `none` when the pattern does not parse
or conflicts with a registered one (the mux panics), and for the kinds of
pattern that `parsePattern` leaves out. -/
def Handle (mux : ServeMux Time) (pattern : String) (h : Handler Time) :
    Option (ServeMux Time) :=
  match parsePattern pattern with
  | none => none
  | some p =>
    if mux.routes.any (fun e => decide (parsePattern e.1 = some p)) then none
    else some ⟨mux.routes ++ [(pattern, h)]⟩

/-- Go's `mux.HandleFunc(pattern, f)` is `mux.Handle(pattern, HandlerFunc(f))`. -/
def HandleFunc (mux : ServeMux Time) (pattern : String) (f : Handler Time) :
    Option (ServeMux Time) :=
  mux.Handle pattern f

/-- The route whose exact pattern has just these segments. -/
def exactRoute (mux : ServeMux Time) (segs : List (List Char)) :
    Option (String × Handler Time) :=
  mux.routes.find? (fun e =>
    match parsePattern e.1 with
    | some p => !p.subtree && p.matchesSegs segs
    | none => false)

/-- Picks the subtree pattern with the most segments among those that match. -/
def deepestSubtree (segs : List (List Char)) :
    List (String × Handler Time) → Option (Nat × String × Handler Time) →
      Option (Nat × String × Handler Time)
  | [], best => best
  | e :: es, best =>
    match parsePattern e.1 with
    | some p =>
      if p.subtree ∧ p.matchesSegs segs then
        match best with
        | some b =>
          if b.1 < p.segs.length then deepestSubtree segs es (some (p.segs.length, e))
          else deepestSubtree segs es best
        | none => deepestSubtree segs es (some (p.segs.length, e))
      else deepestSubtree segs es best
    | none => deepestSubtree segs es best

/-- The routing tree's `match(host, method, path)` for the patterns covered:
the exact pattern of the path if there is one, otherwise the deepest subtree
pattern the path lies in. The second component tells whether the pattern
ends in a subtree wildcard and how many segments it has, counting that
one. -/
def matchPath (mux : ServeMux Time) (path : String) :
    Option ((String × Handler Time) × Bool × Nat) :=
  match mux.exactRoute (pathSegments path.toList) with
  | some e => some (e, false, (pathSegments path.toList).length)
  | none =>
    (deepestSubtree (pathSegments path.toList) mux.routes none).map
      (fun b => (b.2, true, b.1 + 1))

/-- Go's `exactMatch(n, path)`: a match is exact unless it is a subtree pattern
matching more than its own trailing slash. -/
def exactMatch (n : Option ((String × Handler Time) × Bool × Nat)) (path : String) : Bool :=
  match n with
  | none => false
  | some (_, multi, nsegs) =>
    if ¬ multi then true
    else if path.toList ≠ [] ∧ path.toList.getLast? ≠ some '/' then false
    else decide (nsegs = path.toList.count '/')

/-- Go's `mux.matchOrRedirect(host, method, path, u)`: the match for `path`, and,
when `u` (the path and query of the request URL) is given, the path has no
exact match and does not end in a slash, but the path with a slash added has
an exact match, the URL to redirect to. -/
def matchOrRedirect (L : Lib Time) (mux : ServeMux Time) (path : String)
    (u : Option (String × String)) :
    Option ((String × Handler Time) × Bool × Nat) × Option String :=
  let n := mux.matchPath path
  match u with
  | none => (n, none)
  | some (upath, uquery) =>
    if ¬ exactMatch n path ∧ path.toList.getLast? ≠ some '/' then
      if exactMatch (mux.matchPath (path ++ "/")) (path ++ "/") then
        (none, some (L.urlString (cleanPath upath ++ "/") uquery))
      else (n, none)
    else (n, none)

/-- What the mux selected for a request: a registered handler together with
its pattern, a redirect to `url`, or the not-found handler. -/
inductive Selected (Time : Type) where
  | registered (pattern : String) (h : Handler Time)
  | redirect (url : String)
  | notFound

/-- Runs the selected handler. -/
def Selected.serve (L : Lib Time) : Selected Time → GoServeMux.Handler Time
  | .registered _ h => h
  | .redirect url => RedirectHandler L url L.redirectCode
  | .notFound => NotFoundHandler

/-- The handler for a match: the registered one, or `NotFoundHandler`. -/
def selectedOf (n : Option ((String × Handler Time) × Bool × Nat)) : Selected Time :=
  match n with
  | some (e, _) => .registered e.1 e.2
  | none => .notFound

/-- Go's `mux.findHandler(r)`: `CONNECT` requests are matched on their escaped
path as it is; for all other methods the escaped path is cleaned, and a
request whose escaped path is not in clean form is redirected to the clean
path. -/
def Handler (L : Lib Time) (mux : ServeMux Time) (r : Request) : Selected Time :=
  if r.method = "CONNECT" then
    match (matchOrRedirect L mux r.escapedPath (some (r.path, r.rawQuery))).2 with
    | some url => .redirect url
    | none => selectedOf (matchOrRedirect L mux r.escapedPath none).1
  else
    let path := cleanPath r.escapedPath
    match matchOrRedirect L mux path (some (r.path, r.rawQuery)) with
    | (_, some url) => .redirect url
    | (n, none) =>
      if path ≠ r.escapedPath then .redirect (L.urlString path r.rawQuery)
      else selectedOf n

/-- Go's `r.ProtoAtLeast(1, 1)`. -/
def protoAtLeast11 (r : Request) : Bool :=
  decide (1 < r.protoMajor ∨ (r.protoMajor = 1 ∧ 1 ≤ r.protoMinor))

/-- Go's `mux.ServeHTTP(w, r)`: a request for `*` is a bad request, every other
request goes to the handler chosen by `mux.findHandler`. -/
def ServeHTTP (L : Lib Time) (mux : ServeMux Time) : GoServeMux.Handler Time :=
  fun x =>
    if x.r.requestURI = "*" then
      let w1 := if protoAtLeast11 x.r then x.w.setHeader "Connection" "close" else x.w
      { x with w := w1.WriteHeader 400 }
    else (mux.Handler L x.r).serve L x

end ServeMux
/-! ## The process: logger, default mux, listener -/

/-- What the process does that is visible from outside, in the order it
happens: a message handed to the standard logger, an attempt to listen on an
address. -/
inductive Event where
  | log (msg : String)
  | listen (addr : String)
deriving DecidableEq, Repr

/-- The messages logged in a trace, in order. -/
def loggedMessages : List Event → List String
  | [] => []
  | .log m :: es => m :: loggedMessages es
  | .listen _ :: es => loggedMessages es

/-- State of the running program as far as `main` can change it: the trace of
events so far, the process-wide `http.DefaultServeMux`, the address and
handler of the server once it is serving, and the exit status once the
process has terminated. `args` and `environ` are the command line and the
environment the process was started with. -/
structure Process (Time : Type) where
  args : List String
  environ : List (String × String)
  trace : List Event
  defaultMux : ServeMux Time
  serving : Option (String × ServeMux Time)
  exit : Option Nat

/-- A process right after start: nothing logged, nothing registered on the
default mux, not serving. -/
def Process.start {Time : Type} (args : List String) (environ : List (String × String)) :
    Process Time :=
  ⟨args, environ, [], ServeMux.NewServeMux, none, none⟩

/-- Go's `log.Print(msg)`. -/
def logPrint {Time : Type} (p : Process Time) (msg : String) : Process Time :=
  { p with trace := p.trace ++ [.log msg] }

/-- Go's `http.ListenAndServe(addr, handler)`. `listenErr` is the outcome of binding
the address: with `some e` the call returns the error `e` at once and nothing
is served; with `none` the server is serving and the call has not returned. -/
def ListenAndServe {Time : Type} (addr : String) (mux : ServeMux Time)
    (listenErr : Option String) (p : Process Time) : Process Time × Option String :=
  let p1 := { p with trace := p.trace ++ [.listen addr] }
  match listenErr with
  | some e => (p1, some e)
  | none => ({ p1 with serving := some (addr, mux) }, none)

/-- The process ends with a panic (exit status 2). -/
def panicExit {Time : Type} (p : Process Time) : Process Time :=
  { p with exit := some 2 }

/-- Function `main` has returned: the process ends with exit status 0. -/
def mainReturns {Time : Type} (p : Process Time) : Process Time :=
  { p with exit := some 0 }

/-! ## `main` (main.go, lines 20-28) -/

/-- Go's `func main()`: the value returned by `http.ListenAndServe` is discarded. -/
def main {Time : Type} (L : Lib Time) (listenErr : Option String) (p : Process Time) :
    Process Time :=
  let mux : ServeMux Time := ServeMux.NewServeMux
  let th := timeHandler L RFC1123
  match mux.HandleFunc "/time" th with
  | none => panicExit p
  | some mux1 =>
    let p1 := logPrint p "Listening..."
    match ListenAndServe ":3000" mux1 listenErr p1 with
    | (p2, none) => p2
    | (p2, some _) => mainReturns p2


/-! ## The server between the connection and the handler (`http.Server`) -/

/-- Go's `r.Header.Get(key)` for a canonical header name: the first value, or the
empty string. -/
def Request.headerGet (r : Request) (key : String) : String :=
  ((r.header.find? (fun kv => kv.1 = key)).map Prod.snd).getD ""

/-- Lower case of an ASCII letter (`lower` of `internal/ascii`). -/
def asciiLower (c : Char) : Char :=
  if 65 ≤ c.toNat ∧ c.toNat ≤ 90 then Char.ofNat (c.toNat + 32) else c

/-- Go's `ascii.EqualFold`: equality ignoring the case of ASCII letters. -/
def equalFold (a b : List Char) : Bool := decide (a.map asciiLower = b.map asciiLower)

/-- Go's `isTokenBoundary`. -/
def isTokenBoundary (c : Char) : Bool := decide (c = ' ' ∨ c = ',' ∨ c = '\t')

/-- Whether `token` occurs in `v` at the start or at some later position, each
time between token boundaries; `atStart` tells whether the head of `v` is a
place where a token may start. -/
def hasTokenFrom (token : List Char) : Bool → List Char → Bool
  | atStart, [] => atStart && decide (token = [])
  | atStart, c :: cs =>
    (atStart && decide (token.length ≤ (c :: cs).length) &&
      equalFold ((c :: cs).take token.length) token &&
      (match (c :: cs).drop token.length with
       | [] => true
       | d :: _ => isTokenBoundary d)) ||
    hasTokenFrom token (isTokenBoundary c) cs

/-- Go's `hasToken(v, token)`: whether the lower-case `token` occurs in `v`,
ignoring case, between spaces, commas or the ends. -/
def hasToken (v token : String) : Bool :=
  if token.length > v.length ∨ token = "" then false
  else hasTokenFrom token.toList true v.toList

/-- Go's `r.expectsContinue()`. -/
def expectsContinue (r : Request) : Bool := hasToken (r.headerGet "Expect") "100-continue"

/-- Go's `w.sendExpectationFailed()`. -/
def sendExpectationFailed (w : ResponseWriter) : ResponseWriter :=
  (w.setHeader "Connection" "close").WriteHeader 417

/-- Go's `globalOptionsHandler`, which answers `OPTIONS *`. -/
def globalOptionsHandler {Time : Type} : Handler Time :=
  fun x => { x with w := x.w.setHeader "Content-Length" "0" }

/-- What the server does with an accepted request before and instead of the
handler it was given (`conn.serve` and `serverHandler.ServeHTTP`): a request
with an `Expect` header other than `100-continue` is refused with status 417,
`OPTIONS *` is answered by the server itself, every other request goes to
the handler. -/
def serverServe {Time : Type} (handler : Handler Time) : Handler Time :=
  fun x =>
    if ¬ expectsContinue x.r ∧ x.r.headerGet "Expect" ≠ "" then
      { x with w := sendExpectationFailed x.w }
    else if x.r.requestURI = "*" ∧ x.r.method = "OPTIONS" then globalOptionsHandler x
    else handler x

/-- Go's `bodyAllowedForStatus(status)`. -/
def bodyAllowedForStatus (status : Nat) : Bool :=
  decide (¬ (100 ≤ status ∧ status ≤ 199) ∧ status ≠ 204 ∧ status ≠ 304)

/-- A response as the client receives it. Headers that the server adds on its
own (`Date`, `Content-Length`, a sniffed `Content-Type`) are left out. -/
structure Response where
  status : Nat
  header : List (String × String)
  body : String
deriving DecidableEq, Repr

/-- The response sent for a finished response writer: the bytes written are
the body, except that the server sends no body in answer to `HEAD` and with
a status that allows none. -/
def clientResponse (r : Request) (w : ResponseWriter) : Response :=
  { status := w.statusCode
    header := w.header
    body := if r.method = "HEAD" ∨ ¬ bodyAllowedForStatus w.statusCode then "" else w.bodyString }

/-- The exchange after the process has handled request `r`, arriving with clock
`c`, on a fresh response writer: the server passes it to the mux it serves
unless it answers itself; `none` when the process is not serving. -/
def Process.respond {Time : Type} (L : Lib Time) (p : Process Time) (r : Request)
    (c : Clock Time) : Option (Exchange Time) :=
  match p.exit, p.serving with
  | none, some (_, mux) => some (serverServe (mux.ServeHTTP L) ⟨ResponseWriter.fresh, r, c⟩)
  | _, _ => none

/-- The response the client receives from the process for request `r`. -/
def Process.reply {Time : Type} (L : Lib Time) (p : Process Time) (r : Request)
    (c : Clock Time) : Option Response :=
  (p.respond L r c).map (fun x => clientResponse r x.w)

/-- Conditions that hold of every request the server has read and accepted and
that the statements below rely on: the protocol is HTTP/1.x; the request
target `*` and only it gives the escaped path `*`; any other escaped path is
empty or starts with a slash; and the URL path is the escaped path
unescaped. -/
def Request.WellFormed (r : Request) : Prop :=
  r.protoMajor = 1 ∧
  (r.requestURI = "*" ↔ r.escapedPath = "*") ∧
  (r.escapedPath = "" ∨ r.escapedPath = "*" ∨ r.escapedPath.toList.head? = some '/') ∧
  unescapeChars r.escapedPath.toList = some r.path.toList

instance (r : Request) : Decidable r.WellFormed := by
  unfold Request.WellFormed; infer_instance

/-! ## The variant in the comments of main.go that builds as written (lines 71-90) -/

/-- Variant of lines 71-73: `type timeHandler struct { format string }`. -/
structure TimeHandlerStruct where
  format : String
deriving DecidableEq, Repr

/-- Variant of lines 75-78: `func (th timeHandler) ServeHTTP(w, r)`. -/
def TimeHandlerStruct.ServeHTTP {Time : Type} (L : Lib Time) (th : TimeHandlerStruct) :
    Handler Time :=
  fun x =>
    let (t, clock1) := x.clock.Now
    let tm := L.format t th.format
    { x with w := x.w.Write ("The time is: " ++ tm), clock := clock1 }

/-- Variant `main` of lines 80-90: registers the struct handler with
`mux.Handle`. -/
def mainStruct {Time : Type} (L : Lib Time) (listenErr : Option String) (p : Process Time) :
    Process Time :=
  let mux : ServeMux Time := ServeMux.NewServeMux
  let th : TimeHandlerStruct := { format := RFC1123 }
  match mux.Handle "/time" (th.ServeHTTP L) with
  | none => panicExit p
  | some mux1 =>
    let p1 := logPrint p "Listening..."
    match ListenAndServe ":3000" mux1 listenErr p1 with
    | (p2, none) => p2
    | (p2, some _) => mainReturns p2

/-! ## Serving a sequence of requests -/

/-- Handles the requests one after the other on the same mux; each gets a
fresh response writer, the clock is carried from one to the next. Returns the
finished response writers. -/
def serveAll {Time : Type} (L : Lib Time) (mux : ServeMux Time) :
    List Request → Clock Time → List ResponseWriter × Clock Time
  | [], c => ([], c)
  | r :: rs, c =>
    let x := mux.ServeHTTP L ⟨ResponseWriter.fresh, r, c⟩
    let rest := serveAll L mux rs x.clock
    (x.w :: rest.1, rest.2)

/-! ## Concrete values used in examples -/

/-- A library instance over `Time := Nat`: `format` renders the reading in
decimal and ignores the layout, URLs are rendered without escaping, and the
mux redirects with status 307. -/
def demoLib : Lib Nat where
  format := fun t _ => toString t
  urlString := fun p q => if q = "" then p else p ++ "?" ++ q
  redirectURL := fun _ url => url
  htmlEscape := fun s => s
  redirectCode := 307

/-- A clock whose `n`-th reading is `n`. -/
def demoClock : Clock Nat := ⟨fun n => n, 0⟩

/-- A `GET` request for `path` (a path that needs no escaping). -/
def getRequest (path : String) : Request :=
  { method := "GET", protoMajor := 1, protoMinor := 1, requestURI := path,
    host := "localhost:3000", urlHost := "", path := path, escapedPath := path,
    rawQuery := "", header := [], body := "" }

/-- A `POST` request for `/time` with a query string, a header and a body. -/
def postTimeRequest : Request :=
  { method := "POST", protoMajor := 1, protoMinor := 1, requestURI := "/time?a=1",
    host := "localhost:3000", urlHost := "", path := "/time", escapedPath := "/time",
    rawQuery := "a=1", header := [("Accept", "text/plain")], body := "x" }

/-- A `HEAD` request for `/time`. -/
def headTimeRequest : Request := { getRequest "/time" with method := "HEAD" }

/-- A `GET` request for `/time` with the header `Expect: something`. -/
def expectTimeRequest : Request := { getRequest "/time" with header := [("Expect", "something")] }

/-- A `GET` request for `/missing` with the header `Expect: something`. -/
def expectMissingRequest : Request :=
  { getRequest "/missing" with header := [("Expect", "something")] }

/-- A `GET` request for `/%74ime`, whose URL path is `/time`. -/
def escapedTimeRequest : Request :=
  { getRequest "/time" with requestURI := "/%74ime", escapedPath := "/%74ime" }

/-! ## Go's `time` package: clock readings and the calendar

The readings of `time.Now()` and the rendering `Time.Format(time.RFC1123)`
follow the behaviour of Go's `time` package. Strings are handled as lists of
one-byte characters, the way the package indexes them. -/

/-- A reading of `time.Now()`: the instant (`unixSec` seconds and `nsec`
nanoseconds since the Unix epoch) together with the zone of the local
location in effect at that instant, its abbreviation and its offset in
seconds east of UTC (what `Time.locabs` yields). -/
structure GoTime where
  unixSec : Int
  nsec : Nat
  zoneName : String
  zoneOffset : Int
deriving DecidableEq, Repr

/-- Go's `isLeap(year)`. -/
def isLeap (year : Int) : Bool :=
  decide (year % 4 = 0 ∧ (year % 100 ≠ 0 ∨ year % 400 = 0))

/-- Table `daysBefore`: the number of days in a non-leap year before month
index `m` (0 for January, 12 for the whole year). -/
def daysBefore : Nat → Int
  | 0 => 0
  | 1 => 31
  | 2 => 59
  | 3 => 90
  | 4 => 120
  | 5 => 151
  | 6 => 181
  | 7 => 212
  | 8 => 243
  | 9 => 273
  | 10 => 304
  | 11 => 334
  | _ => 365

/-- Go's `daysIn(month, year)` for `month` in 1..12. -/
def daysIn (month : Nat) (year : Int) : Int :=
  if month = 2 ∧ isLeap year then 29
  else daysBefore month - daysBefore (month - 1)

/-- Days from 1 January of year 1 to 1 January of `year` (`daysSinceEpoch`,
counted from year 1, which has the same place in the 400-year cycle as the
package's absolute zero year). -/
def daysSinceEpoch (year : Int) : Int :=
  let y := year - 1
  let n400 := y / 400
  let y1 := y - 400 * n400
  let n100 := y1 / 100
  let y2 := y1 - 100 * n100
  let n4 := y2 / 4
  let y3 := y2 - 4 * n4
  146097 * n400 + 36524 * n100 + 1461 * n4 + 365 * y3

/-- The year and the day of the year (from 0) of day number `d`, counted from
1 January of year 1 (`absDate`, first half). -/
def yearDay (d : Int) : Int × Int :=
  let n400 := d / 146097
  let d1 := d - 146097 * n400
  let c := d1 / 36524
  let n100 := c - c / 4
  let d2 := d1 - 36524 * n100
  let n4 := d2 / 1461
  let d3 := d2 - 1461 * n4
  let q := d3 / 365
  let n1 := q - q / 4
  let yday := d3 - 365 * n1
  (1 + 400 * n400 + 100 * n100 + 4 * n4 + n1, yday)

/-- Month (1..12) and day of the month (from 1) for a year that is leap or not
and a day of the year from 0 (`absDate`, second half). -/
def monthDay (leap : Bool) (yday : Int) : Nat × Int :=
  if leap ∧ yday = 31 + 29 - 1 then (2, 29)
  else
    let day := if leap ∧ yday > 31 + 29 - 1 then yday - 1 else yday
    let m := (day / 31).toNat
    let e := daysBefore (m + 1)
    if day ≥ e then (m + 2, day - e + 1)
    else (m + 1, day - daysBefore m + 1)

/-- Year, month, day of day number `d` (`absDate`). -/
def absDate (d : Int) : Int × Nat × Int :=
  let yd := yearDay d
  let md := monthDay (isLeap yd.1) yd.2
  (yd.1, md.1, md.2)

/-- Day number, from 1 January of year 1, of a date with month in 1..12 and
day in range (the day count of `Date`, which `Parse` calls with fields it has
checked). -/
def dateDays (year : Int) (month : Nat) (day : Int) : Int :=
  daysSinceEpoch year + daysBefore (month - 1) +
    (if isLeap year ∧ month ≥ 3 then 1 else 0) + (day - 1)

/-- Day number of the Unix epoch, 1 January 1970. -/
def unixEpochDays : Int := 719162

/-- Go's `Date(year, month, day, hour, min, sec, 0, UTC).Unix()` for fields in
range. -/
def dateUnix (year : Int) (month : Nat) (day : Int) (hour min sec : Nat) : Int :=
  (dateDays year month day - unixEpochDays) * 86400 + (hour * 3600 + min * 60 + sec : Nat)

/-- Go's `absWeekday`: 0 is Sunday; day number 0 is a Monday. -/
def weekday (d : Int) : Nat := ((d + 1) % 7).toNat

/-- Table `shortDayNames`. -/
def shortDayNames : List (List Char) :=
  ["Sun".toList, "Mon".toList, "Tue".toList, "Wed".toList, "Thu".toList, "Fri".toList,
    "Sat".toList]

/-- Table `shortMonthNames`. -/
def shortMonthNames : List (List Char) :=
  ["Jan".toList, "Feb".toList, "Mar".toList, "Apr".toList, "May".toList, "Jun".toList,
    "Jul".toList, "Aug".toList, "Sep".toList, "Oct".toList, "Nov".toList, "Dec".toList]

/-- The decimal digit `k` as a character. -/
def digitChar (k : Nat) : Char := Char.ofNat (48 + k % 10)

/-- Two decimal digits of `n`. -/
def twoDigits (n : Nat) : List Char := [digitChar (n / 10), digitChar n]

/-- Go's `appendInt(b, x, width)`: the decimal form of `x`, zero-padded to `width`
digits, with a leading `-` when negative. -/
def appendInt (x : Int) (width : Nat) : List Char :=
  let u := x.natAbs
  let sign := if x < 0 then ['-'] else []
  if width = 2 ∧ u < 100 then sign ++ twoDigits u
  else if width = 4 ∧ u < 10000 then sign ++ twoDigits (u / 100) ++ twoDigits (u % 100)
  else
    let ds := Nat.toDigits 10 u
    sign ++ List.replicate (width - ds.length) '0' ++ ds

/-- The zone field of the layout (`MST`): the abbreviation, or the offset as
`±hhmm` when the zone has no name; the offset is converted to minutes by
Go's integer division, which truncates toward zero. -/
def zoneText (t : GoTime) : List Char :=
  if t.zoneName ≠ "" then t.zoneName.toList
  else
    let zone := Int.tdiv t.zoneOffset 60
    let sign := if zone < 0 then '-' else '+'
    let z := zone.natAbs
    sign :: (appendInt (z / 60 : Nat) 2 ++ appendInt (z % 60 : Nat) 2)

/-- Seconds of the reading on the local wall clock, counted from the Unix
epoch. -/
def GoTime.wallSec (t : GoTime) : Int := t.unixSec + t.zoneOffset

/-- Day number of the reading on the local calendar. -/
def GoTime.wallDays (t : GoTime) : Int := t.wallSec / 86400 + unixEpochDays

/-- Second of the day of the reading on the local wall clock. -/
def GoTime.secOfDay (t : GoTime) : Nat := (t.wallSec % 86400).toNat

/-- Go's `t.Format(time.RFC1123)`, layout `Mon, 02 Jan 2006 15:04:05 MST`. -/
def formatRFC1123 (t : GoTime) : List Char :=
  let d := t.wallDays
  let ymd := absDate d
  let s := t.secOfDay
  shortDayNames.getD (weekday d) [] ++ ", ".toList ++
    appendInt ymd.2.2 2 ++ " ".toList ++
    shortMonthNames.getD (ymd.2.1 - 1) [] ++ " ".toList ++
    appendInt ymd.1 4 ++ " ".toList ++
    appendInt (s / 3600 : Nat) 2 ++ ":".toList ++
    appendInt (s % 3600 / 60 : Nat) 2 ++ ":".toList ++
    appendInt (s % 60 : Nat) 2 ++ " ".toList ++
    zoneText t

/-! ## Go's `time` package: `Parse` with the layout `time.RFC1123` -/

/-- Go's `isDigit(s, 0)` on the first character. -/
def isDigitChar (c : Char) : Bool := decide (48 ≤ c.toNat ∧ c.toNat ≤ 57)

/-- The value of a decimal digit character. -/
def digitVal (c : Char) : Nat := c.toNat - 48

/-- Go's `cutspace`: drops leading spaces. -/
def cutspace : List Char → List Char
  | [] => []
  | c :: cs => if c = ' ' then cutspace cs else c :: cs

/-- Go's `skip(value, prefix)`: removes `prefix` from `value`; a space in the prefix
stands for the whole run of spaces that follows in the prefix and matches any
run of spaces in the value (also an empty value). `inRun` tells that the
spaces at the head of the prefix belong to a run already matched. -/
def skipAux : Bool → List Char → List Char → Option (List Char)
  | _, value, [] => some value
  | inRun, value, p :: ps =>
    if p = ' ' then
      if inRun then skipAux true value ps
      else
        match value with
        | [] => skipAux true [] ps
        | v :: vs => if v ≠ ' ' then none else skipAux true (cutspace (v :: vs)) ps
    else
      match value with
      | [] => none
      | v :: vs => if v ≠ p then none else skipAux false vs ps

/-- Go's `skip(value, prefix)`. -/
def skip (value pre : List Char) : Option (List Char) := skipAux false value pre

/-- Go's `match(s1, s2)`: equality of two strings of the same length, ignoring the
case of letters. -/
def matchFold : List Char → List Char → Bool
  | [], _ => true
  | _ :: _, [] => true
  | c1 :: s1, c2 :: s2 =>
    if c1 = c2 then matchFold s1 s2
    else
      let l1 := c1.toNat ||| 32
      let l2 := c2.toNat ||| 32
      if l1 ≠ l2 ∨ l1 < 97 ∨ l1 > 122 then false else matchFold s1 s2

/-- Go's `lookup(tab, val)`: the index of the first table entry that `val` starts
with, ignoring case, and the rest of `val`. -/
def lookupFrom (i : Nat) : List (List Char) → List Char → Option (Nat × List Char)
  | [], _ => none
  | v :: tab, val =>
    if val.length ≥ v.length ∧ matchFold (val.take v.length) v then
      some (i, val.drop v.length)
    else lookupFrom (i + 1) tab val

/-- Go's `lookup(tab, val)`. -/
def lookup (tab : List (List Char)) (val : List Char) : Option (Nat × List Char) :=
  lookupFrom 0 tab val

/-- Go's `getnum(s, fixed)`: a number of one or two digits, exactly two when
`fixed`. -/
def getnum (s : List Char) (fixed : Bool) : Option (Nat × List Char) :=
  match s with
  | [] => none
  | c0 :: s1 =>
    if ¬ isDigitChar c0 then none
    else
      match s1 with
      | [] => if fixed then none else some (digitVal c0, [])
      | c1 :: s2 =>
        if ¬ isDigitChar c1 then
          if fixed then none else some (digitVal c0, c1 :: s2)
        else some (digitVal c0 * 10 + digitVal c1, s2)

/-- Go's `leadingInt(s)`: the number formed by the leading digits and the rest;
`none` when the number exceeds `2^63`. -/
def leadingIntFrom (x : Nat) : List Char → Option (Nat × List Char)
  | [] => some (x, [])
  | c :: cs =>
    if ¬ isDigitChar c then some (x, c :: cs)
    else if x > 2 ^ 63 / 10 then none
    else
      let x1 := x * 10 + digitVal c
      if x1 > 2 ^ 63 then none else leadingIntFrom x1 cs

/-- Go's `leadingInt(s)`. -/
def leadingInt (s : List Char) : Option (Nat × List Char) := leadingIntFrom 0 s

/-- Go's `atoi(s)`: an optional sign followed by digits only. -/
def atoi (s : List Char) : Option Int :=
  let neg := s.head? = some '-'
  let s1 := if s.head? = some '-' ∨ s.head? = some '+' then s.tail else s
  match leadingInt s1 with
  | none => none
  | some (q, rem) =>
    if rem ≠ [] then none
    else some (if neg then - (q : Int) else (q : Int))

/-- Go's `parseSignedOffset(value)`: the length of a sign followed by digits that
form a number up to 23; 0 when there is none. -/
def parseSignedOffset (value : List Char) : Nat :=
  match value with
  | [] => 0
  | sign :: rest =>
    if sign ≠ '-' ∧ sign ≠ '+' then 0
    else
      match leadingInt rest with
      | none => 0
      | some (x, rem) =>
        if rest = rem then 0
        else if x > 23 then 0
        else value.length - rem.length

/-- Go's `parseGMT(value)` for a value that starts with `GMT`. -/
def parseGMT (value : List Char) : Nat :=
  let v := value.drop 3
  if v = [] then 3 else 3 + parseSignedOffset v

/-- Number of leading upper-case letters of `value`, at most 6. -/
def countUpper : Nat → List Char → Nat
  | 0, _ => 0
  | _ + 1, [] => 0
  | n + 1, c :: cs => if c.toNat < 65 ∨ 90 < c.toNat then 0 else countUpper n cs + 1

/-- Go's `parseTimeZone(value)`: the length of the zone abbreviation at the start of
`value`, `none` when there is none. -/
def parseTimeZone (value : List Char) : Option Nat :=
  if value.length < 3 then none
  else if value.length ≥ 4 ∧ (value.take 4 = "ChST".toList ∨ value.take 4 = "MeST".toList) then
    some 4
  else if value.take 3 = "GMT".toList then some (parseGMT value)
  else if value.head? = some '+' ∨ value.head? = some '-' then
    let length := parseSignedOffset value
    if length > 0 then some length else none
  else
    match countUpper 6 value with
    | 5 => if value.get? 4 = some 'T' then some 5 else none
    | 4 => if value.get? 3 = some 'T' ∨ value.take 4 = "WITA".toList then some 4 else none
    | 3 => some 3
    | _ => none

/-- The fractional second that `Parse` accepts after the seconds although the
layout has none: a period or comma followed by digits, of which the first
nine count (`parseNanoseconds`). Returns the nanoseconds and the rest. -/
def parseFraction (value : List Char) : Nat × List Char :=
  match value with
  | c0 :: c1 :: cs =>
    if (c0 = '.' ∨ c0 = ',') ∧ isDigitChar c1 then
      let digits := (c1 :: cs).takeWhile isDigitChar
      let used := digits.take 9
      (used.foldl (fun x c => x * 10 + digitVal c) 0 * 10 ^ (9 - used.length),
        (c1 :: cs).drop digits.length)
    else (0, value)
  | _ => (0, value)

/-- The zone field `MST` at the end of the layout: `UTC` means offset 0; any
other abbreviation accepted by `parseTimeZone` is looked up in the parser's
local location (`lookupName name unix`, the offset the location gives the
abbreviation around the wall-clock second `unix`), and counts as offset 0
when the location does not know it. Text left over is an error. The result is
the offset, in seconds east of UTC, of the parsed time. -/
def parseZone (lookupName : String → Int → Option Int) (value : List Char) (unix : Int) :
    Option Int :=
  if value.length ≥ 3 ∧ value.take 3 = "UTC".toList then
    if value.drop 3 ≠ [] then none else some 0
  else
    match parseTimeZone value with
    | none => none
    | some n =>
      if value.drop n ≠ [] then none
      else some ((lookupName (String.mk (value.take n)) unix).getD 0)

/-- The year field `2006`: exactly four characters, the first a digit, read
by `atoi`. -/
def parseYear (v : List Char) : Option (Int × List Char) :=
  if v.length < 4 ∨ ¬ (v.head?.map isDigitChar = some true) then none
  else (atoi (v.take 4)).map fun (year : Int) => (year, v.drop 4)

/-- The fields `Mon, 02 Jan 2006 ` of the layout: day, month (1..12), year and
the rest of the value. The weekday is read and ignored. -/
def parseDateFields (value : List Char) : Option (Nat × Nat × Int × List Char) :=
  (lookup shortDayNames value).bind fun (wd : Nat × List Char) =>
  (skip wd.2 ", ".toList).bind fun (v2 : List Char) =>
  (getnum v2 true).bind fun (dd : Nat × List Char) =>
  (skip dd.2 " ".toList).bind fun (v4 : List Char) =>
  (lookup shortMonthNames v4).bind fun (mm : Nat × List Char) =>
  (skip mm.2 " ".toList).bind fun (v6 : List Char) =>
  (parseYear v6).bind fun (yy : Int × List Char) =>
  (skip yy.2 " ".toList).map fun (v8 : List Char) => (dd.1, mm.1 + 1, yy.1, v8)

/-- A two-digit field with its range check. -/
def getnumBelow (v : List Char) (fixed : Bool) (bound : Nat) : Option (Nat × List Char) :=
  (getnum v fixed).bind fun (x : Nat × List Char) => if bound ≤ x.1 then none else some x

/-- The fields `15:04:05 ` of the layout: hour, minute, second, nanoseconds
and the rest of the value. -/
def parseClockFields (v8 : List Char) : Option (Nat × Nat × Nat × Nat × List Char) :=
  (getnumBelow v8 false 24).bind fun (hh : Nat × List Char) =>
  (skip hh.2 ":".toList).bind fun (v10 : List Char) =>
  (getnumBelow v10 true 60).bind fun (mi : Nat × List Char) =>
  (skip mi.2 ":".toList).bind fun (v12 : List Char) =>
  (getnumBelow v12 true 60).bind fun (ss : Nat × List Char) =>
  (skip (parseFraction ss.2).2 " ".toList).map fun (v14 : List Char) =>
    (hh.1, mi.1, ss.1, (parseFraction ss.2).1, v14)

/-- Go's `time.Parse(time.RFC1123, value)` in a process whose local location
resolves abbreviations by `lookupName`: the parsed instant as seconds and
nanoseconds since the Unix epoch, `none` for a parse error. -/
def parseRFC1123 (lookupName : String → Int → Option Int) (value : List Char) :
    Option (Int × Nat) :=
  (parseDateFields value).bind fun (d : Nat × Nat × Int × List Char) =>
  (parseClockFields d.2.2.2).bind fun (c : Nat × Nat × Nat × Nat × List Char) =>
  (parseZone lookupName c.2.2.2.2
      (dateUnix d.2.2.1 d.2.1 (d.1 : Nat) c.1 c.2.1 c.2.2.1)).bind fun (offset : Int) =>
  if (d.1 : Int) < 1 ∨ (d.1 : Int) > daysIn d.2.1 d.2.2.1 then none
  else some (dateUnix d.2.2.1 d.2.1 (d.1 : Nat) c.1 c.2.1 c.2.2.1 - offset, c.2.2.2.1)

/-- Rendering of the library used by the handler on `GoTime` readings:
`Format` with the layout `time.RFC1123` is `formatRFC1123`. Other layouts are
rendered by `other`. -/
def goLib (other : GoTime → String → String) : Lib GoTime where
  format := fun t layout => if layout = RFC1123 then String.mk (formatRFC1123 t) else other t layout
  urlString := fun p q => if q = "" then p else p ++ "?" ++ q
  redirectURL := fun _ url => url
  htmlEscape := fun s => s
  redirectCode := 307

/-- The local location of a process in New York: `EST` is UTC-5, `EDT` is
UTC-4. -/
def newYorkLookup : String → Int → Option Int :=
  fun name _ => if name = "EST" then some (-18000) else if name = "EDT" then some (-14400) else none

/-- The local location of a process running in UTC: it knows `UTC` only. -/
def utcLookup : String → Int → Option Int :=
  fun name _ => if name = "UTC" then some 0 else none

/-- The local location of a process in Tehran: `+0330` is UTC+3:30. -/
def tehranLookup : String → Int → Option Int :=
  fun name _ => if name = "+0330" then some 12600 else none

/-! ## Reading the timestamp back from a response body -/

/-- The year of the reading on the local calendar. -/
def GoTime.year (t : GoTime) : Int := (absDate t.wallDays).1

/-- The reading `t1` is not later than `t2`. -/
def GoTime.notAfter (t1 t2 : GoTime) : Prop :=
  t1.unixSec < t2.unixSec ∨ (t1.unixSec = t2.unixSec ∧ t1.nsec ≤ t2.nsec)

instance (t1 t2 : GoTime) : Decidable (t1.notAfter t2) := by
  unfold GoTime.notAfter; infer_instance

/-- An instant given as seconds and nanoseconds since the Unix epoch, in
nanoseconds. -/
def nanosOf (p : Int × Nat) : Int := p.1 * 1000000000 + p.2

/-- The timestamp carried by a response body: the part after the prefix
`"The time is: "`, parsed with the layout `time.RFC1123` by a reader whose
local location resolves abbreviations by `lookupName`. -/
def timestampOf (lookupName : String → Int → Option Int) (w : ResponseWriter) :
    Option (Int × Nat) :=
  parseRFC1123 lookupName (w.bodyString.toList.drop "The time is: ".length)

/-- A reading in Tehran, 29 February 2024, 16:04:56 local time, zone `+0330`. -/
def tehranReading : GoTime := ⟨1709210096, 5, "+0330", 12600⟩

/-- A reading in New York, 3 November 2024, 01:59:59 `EDT`, one second before
the clocks go back. -/
def edtReading : GoTime := ⟨1730613599, 500000000, "EDT", -14400⟩

/-- The reading one second later, 01:00:00 `EST`. -/
def estReading : GoTime := ⟨1730613600, 500000000, "EST", -18000⟩

/-- A reading in UTC, 1 January of the year 10000, 00:00:00. -/
def year10000Reading : GoTime := ⟨253402300800, 0, "UTC", 0⟩

/-- A clock in New York whose first reading is `edtReading` and whose later
readings are `estReading`. -/
def fallBackClock : Clock GoTime := ⟨fun n => if n = 0 then edtReading else estReading, 0⟩

/-- A library instance on `GoTime` readings that renders other layouts as the
empty string. -/
def goDemoLib : Lib GoTime := goLib (fun _ _ => "")

/-! ## Lemmas on the response writer and the handler -/

section Theorems

variable {Time : Type}

theorem WriteHeader_fresh (code : Nat) :
    ResponseWriter.fresh.WriteHeader code = ⟨some code, [], []⟩ := rfl

theorem Write_writes (w : ResponseWriter) (b : String) :
    (w.Write b).writes = w.writes ++ [b] := by
  unfold ResponseWriter.Write ResponseWriter.WriteHeader
  cases h : w.status <;> simp

theorem Write_status_none (w : ResponseWriter) (b : String) (h : w.status = none) :
    (w.Write b).status = some 200 := by
  unfold ResponseWriter.Write ResponseWriter.WriteHeader
  simp [h]

theorem Write_header (w : ResponseWriter) (b : String) :
    (w.Write b).header = w.header := by
  unfold ResponseWriter.Write ResponseWriter.WriteHeader
  cases h : w.status <;> simp

theorem timeHandler_w (L : Lib Time) (format : String) (x : Exchange Time) :
    (timeHandler L format x).w =
      x.w.Write ("The time is: " ++ L.format (x.clock.now x.clock.reads) format) := rfl

theorem timeHandler_r (L : Lib Time) (format : String) (x : Exchange Time) :
    (timeHandler L format x).r = x.r := rfl

theorem timeHandler_clock (L : Lib Time) (format : String) (x : Exchange Time) :
    (timeHandler L format x).clock = ⟨x.clock.now, x.clock.reads + 1⟩ := rfl

theorem bodyString_singleton (b : String) :
    ResponseWriter.bodyString ⟨some 200, [], [b]⟩ = b := by
  simp [ResponseWriter.bodyString, String.join]

theorem timeHandler_fresh (L : Lib Time) (format : String) (r : Request) (c : Clock Time) :
    (timeHandler L format ⟨ResponseWriter.fresh, r, c⟩).w =
      ⟨some 200, [], ["The time is: " ++ L.format (c.now c.reads) format]⟩ := rfl

/-! ## C3: the body written by the `/time` handler -/

/-- C3: the handler registered for `/time`, run on a fresh response writer with
any request and any clock, reads the clock exactly once, performs exactly one
write, and the full body is `"The time is: "` followed by that reading
rendered in the layout `Mon, 02 Jan 2006 15:04:05 MST`. -/
theorem timeHandler_body_exact (L : Lib Time) (r : Request) (c : Clock Time) :
    RFC1123 = "Mon, 02 Jan 2006 15:04:05 MST" ∧
    (timeHandler L RFC1123 ⟨ResponseWriter.fresh, r, c⟩).w.bodyString =
      "The time is: " ++ L.format (c.now c.reads) "Mon, 02 Jan 2006 15:04:05 MST" ∧
    (timeHandler L RFC1123 ⟨ResponseWriter.fresh, r, c⟩).w.writes =
      ["The time is: " ++ L.format (c.now c.reads) "Mon, 02 Jan 2006 15:04:05 MST"] ∧
    (timeHandler L RFC1123 ⟨ResponseWriter.fresh, r, c⟩).clock.reads = c.reads + 1 ∧
    (timeHandler L RFC1123 ⟨ResponseWriter.fresh, r, c⟩).clock.now = c.now := by
  refine ⟨rfl, ?_, ?_, rfl, rfl⟩
  · rw [timeHandler_fresh, bodyString_singleton]; rfl
  · rw [timeHandler_fresh]; rfl

/-! ## C5: the handler ignores the request -/

/-- C5: for every format string, clock and response writer, the handler
returned by `timeHandler(format)` leaves the same response writer (status,
headers, written bytes) whichever of two requests it is given. -/
theorem timeHandler_ignores_request (L : Lib Time) (format : String) (w : ResponseWriter)
    (c : Clock Time) (r1 r2 : Request) :
    (timeHandler L format ⟨w, r1, c⟩).w = (timeHandler L format ⟨w, r2, c⟩).w ∧
    (timeHandler L format ⟨w, r1, c⟩).w.statusCode =
      (timeHandler L format ⟨w, r2, c⟩).w.statusCode ∧
    (timeHandler L format ⟨w, r1, c⟩).w.writes = (timeHandler L format ⟨w, r2, c⟩).w.writes :=
  ⟨rfl, rfl, rfl⟩

/-! ## Lemmas on paths and on the mux with the single route `/time` -/

theorem splitSlash_ne_nil (x : List Char) : splitSlash x ≠ [] := by
  cases x with
  | nil => simp [splitSlash]
  | cons c cs =>
    rw [splitSlash]
    cases h : splitSlash cs with
    | nil => simp
    | cons s ss => by_cases hc : c = '/' <;> simp [hc]

theorem splitSlash_no_slash (x : List Char) (h : '/' ∉ x) : splitSlash x = [x] := by
  induction x with
  | nil => rfl
  | cons c cs ih =>
    have hc : c ≠ '/' := fun e => h (by simp [e])
    have hcs : '/' ∉ cs := fun e => h (List.mem_cons_of_mem _ e)
    rw [splitSlash, ih hcs]
    simp [hc]

theorem splitSlash_singleton (x y : List Char) (h : splitSlash x = [y]) :
    y = x ∧ '/' ∉ x := by
  induction x generalizing y with
  | nil =>
    simp [splitSlash] at h
    simp [h]
  | cons c cs ih =>
    rw [splitSlash] at h
    cases hs : splitSlash cs with
    | nil => exact absurd hs (splitSlash_ne_nil cs)
    | cons s ss =>
      rw [hs] at h
      by_cases hc : c = '/'
      · simp [hc] at h
      · simp only [hc, if_false, List.cons.injEq] at h
        obtain ⟨h1, h2⟩ := h
        subst h2
        obtain ⟨e1, e2⟩ := ih s hs
        subst e1
        refine ⟨h1.symm, ?_⟩
        intro hm
        rcases List.mem_cons.mp hm with e | e
        · exact hc e.symm
        · exact e2 e

theorem splitSlash_append_slash (x : List Char) :
    splitSlash (x ++ ['/']) = splitSlash x ++ [[]] := by
  induction x with
  | nil => rfl
  | cons c cs ih =>
    rw [List.cons_append, splitSlash, ih, splitSlash]
    cases hs : splitSlash cs with
    | nil => exact absurd hs (splitSlash_ne_nil cs)
    | cons s ss => by_cases hc : c = '/' <;> simp [hc]

theorem laterSegments_length (more : List (List Char)) :
    (laterSegments more).length = more.length := by
  induction more with
  | nil => rfl
  | cons x xs ih =>
    cases xs with
    | nil => by_cases hx : x = [] <;> simp [laterSegments, hx]
    | cons y ys => simp only [laterSegments, List.length_cons, ih]

theorem pathSegments_append_slash_length (q : List Char) :
    (pathSegments (q ++ ['/'])).length ≠ 1 ∨ pathSegments (q ++ ['/']) = [['/']] := by
  cases q with
  | nil => right; rfl
  | cons c cs =>
    left
    unfold pathSegments
    have h1 : ¬ (c :: cs ++ ['/'] = []) := by simp
    rw [if_neg h1]
    by_cases h2 : c :: cs ++ ['/'] = ['/']
    · have := congrArg List.length h2
      simp at this
    · rw [if_neg h2]
      have ht : (c :: cs ++ ['/']).tail = cs ++ ['/'] := rfl
      rw [ht, splitSlash_append_slash]
      cases hs : splitSlash cs with
      | nil => exact absurd hs (splitSlash_ne_nil cs)
      | cons s ss =>
        simp only [List.cons_append, List.length_cons, laterSegments_length, List.length_append,
          List.length_singleton]
        omega

theorem pathSegments_append_slash_ne (q : List Char) :
    pathSegments (q ++ ['/']) ≠ [['t', 'i', 'm', 'e']] := by
  intro h
  rcases pathSegments_append_slash_length q with h1 | h1
  · rw [h] at h1; exact h1 rfl
  · rw [h] at h1; exact absurd h1 (by decide)

theorem unescapeChars_cons_ne (c : Char) (rest : List Char) (hc : c ≠ '%') :
    unescapeChars (c :: rest) = (unescapeChars rest).map (fun u => c :: u) := by
  cases rest with
  | nil => simp [unescapeChars, hc]
  | cons a as =>
    cases as with
    | nil => simp [unescapeChars, hc]
    | cons b bs => simp [unescapeChars, hc]

theorem unescapeChars_percent (h1 h2 : Char) (rest : List Char) :
    unescapeChars ('%' :: h1 :: h2 :: rest) =
      if ishex h1 ∧ ishex h2 then
        (unescapeChars rest).map (fun u => Char.ofNat (16 * unhex h1 + unhex h2) :: u)
      else none := by
  rw [unescapeChars]
  simp

theorem unescapeChars_slash_aux (n : Nat) :
    ∀ x u : List Char, x.length ≤ n → unescapeChars x = some u → '/' ∈ x → '/' ∈ u := by
  induction n with
  | zero =>
    intro x u hl _ hs
    cases x with
    | nil => simp at hs
    | cons c cs => simp at hl
  | succ n ih =>
    intro x u hl h hs
    cases x with
    | nil => simp at hs
    | cons c cs =>
      by_cases hc : c = '%'
      · subst hc
        cases cs with
        | nil => simp [unescapeChars] at h
        | cons h1 cs1 =>
          cases cs1 with
          | nil => simp [unescapeChars] at h
          | cons h2 rest =>
            rw [unescapeChars_percent] at h
            by_cases hh : ishex h1 = true ∧ ishex h2 = true
            · rw [if_pos hh] at h
              cases hr : unescapeChars rest with
              | none => rw [hr] at h; simp at h
              | some v =>
                rw [hr] at h
                simp only [Option.map_some', Option.some.injEq] at h
                subst h
                have hne : ¬ ('/' = '%') := by decide
                simp only [List.mem_cons, hne, false_or] at hs
                rcases hs with e | e | e
                · exfalso
                  have := hh.1
                  rw [← e] at this
                  exact absurd this (by decide)
                · exfalso
                  have := hh.2
                  rw [← e] at this
                  exact absurd this (by decide)
                · refine List.mem_cons_of_mem _ (ih rest v ?_ hr e)
                  simp only [List.length_cons] at hl
                  omega
            · rw [if_neg hh] at h
              simp at h
      · rw [unescapeChars_cons_ne c cs hc] at h
        cases hr : unescapeChars cs with
        | none => rw [hr] at h; simp at h
        | some v =>
          rw [hr] at h
          simp only [Option.map_some', Option.some.injEq] at h
          subst h
          rcases List.mem_cons.mp hs with e | e
          · exact e ▸ List.mem_cons_self _ _
          · refine List.mem_cons_of_mem _ (ih cs v ?_ hr e)
            simp only [List.length_cons] at hl
            omega

theorem unescapeChars_slash (x u : List Char) (h : unescapeChars x = some u) (hs : '/' ∈ x) :
    '/' ∈ u :=
  unescapeChars_slash_aux x.length x u (Nat.le_refl _) h hs

theorem time_escapedPath (r : Request) (hwf : r.WellFormed) (hp : r.path = "/time") :
    ∃ rest, r.escapedPath.toList = '/' :: rest ∧ '/' ∉ rest ∧
      unescapeChars rest = some ['t', 'i', 'm', 'e'] := by
  obtain ⟨_, _, hform, hun⟩ := hwf
  rw [hp] at hun
  have htime : "/time".toList = ['/', 't', 'i', 'm', 'e'] := rfl
  rw [htime] at hun
  rcases hform with h | h | h
  · rw [h] at hun
    exact absurd hun (by decide)
  · rw [h] at hun
    exact absurd hun (by decide)
  · cases hl : r.escapedPath.toList with
    | nil => rw [hl] at h; simp at h
    | cons c rest =>
      rw [hl] at h hun
      simp only [List.head?_cons, Option.some.injEq] at h
      subst h
      rw [unescapeChars_cons_ne '/' rest (by decide)] at hun
      cases hr : unescapeChars rest with
      | none => rw [hr] at hun; simp at hun
      | some u =>
        rw [hr] at hun
        simp only [Option.map_some', Option.some.injEq, List.cons.injEq, true_and] at hun
        subst hun
        refine ⟨rest, rfl, ?_, hr⟩
        intro hs
        exact absurd (unescapeChars_slash rest _ hr hs) (by decide)

theorem pathSegments_time (rest : List Char) (hs : '/' ∉ rest)
    (hu : unescapeChars rest = some ['t', 'i', 'm', 'e']) :
    pathSegments ('/' :: rest) = [['t', 'i', 'm', 'e']] := by
  have hne : rest ≠ [] := by
    intro h; rw [h] at hu; exact absurd hu (by decide)
  unfold pathSegments
  rw [if_neg (by simp), if_neg (by simpa using hne)]
  show (match splitSlash rest with
    | [] => []
    | first :: more => pathUnescape first :: laterSegments more) = _
  rw [splitSlash_no_slash rest hs]
  simp [pathUnescape, hu, laterSegments]

theorem cleanPathChars_time (rest : List Char) (hs : '/' ∉ rest)
    (hu : unescapeChars rest = some ['t', 'i', 'm', 'e']) :
    cleanPathChars ('/' :: rest) = '/' :: rest := by
  have hne : rest ≠ [] := by
    intro h; rw [h] at hu; exact absurd hu (by decide)
  have hd1 : rest ≠ ['.'] := by
    intro h; rw [h] at hu; exact absurd hu (by decide)
  have hd2 : rest ≠ ['.', '.'] := by
    intro h; rw [h] at hu; exact absurd hu (by decide)
  have hclean : pathClean ('/' :: rest) = '/' :: rest := by
    unfold pathClean
    have : splitSlash ('/' :: rest) = [[], rest] := by
      rw [splitSlash, splitSlash_no_slash rest hs]; simp
    rw [this]
    simp [cleanStep, hne, hd1, hd2, List.intercalate]
  have hlast : ('/' :: rest).getLast? ≠ some '/' := by
    intro h
    rcases List.exists_cons_of_ne_nil hne with ⟨a, as, e⟩
    rw [e] at h
    rw [List.getLast?_cons_cons] at h
    rw [← e] at h
    exact hs (List.mem_of_getLast?_eq_some h)
  unfold cleanPathChars
  rw [if_neg (by simp)]
  simp only [List.head?_cons, ne_eq, not_true_eq_false, if_false, hclean]
  rw [if_neg (fun h => hlast h.1)]

theorem time_of_pathSegments (r : Request) (hwf : r.WellFormed)
    (hseg : pathSegments r.escapedPath.toList = [['t', 'i', 'm', 'e']]) : r.path = "/time" := by
  obtain ⟨_, _, hform, hun⟩ := hwf
  rcases hform with h | h | h
  · rw [h] at hseg; exact absurd hseg (by decide)
  · rw [h] at hseg; exact absurd hseg (by decide)
  · cases hl : r.escapedPath.toList with
    | nil => rw [hl] at h; simp at h
    | cons c rest =>
      rw [hl] at h hun hseg
      simp only [List.head?_cons, Option.some.injEq] at h
      subst h
      unfold pathSegments at hseg
      rw [if_neg (by simp)] at hseg
      by_cases hr : rest = []
      · subst hr; exact absurd hseg (by decide)
      · rw [if_neg (by simpa using hr)] at hseg
        have ht : ('/' :: rest).tail = rest := rfl
        rw [ht] at hseg
        cases hsp : splitSlash rest with
        | nil => exact absurd hsp (splitSlash_ne_nil rest)
        | cons first more =>
          rw [hsp] at hseg
          simp only [List.cons.injEq] at hseg
          obtain ⟨hfirst, hmore⟩ := hseg
          have hm : more = [] := by
            have := congrArg List.length hmore
            rw [laterSegments_length] at this
            exact List.length_eq_zero.mp this
          subst hm
          obtain ⟨e1, _⟩ := splitSlash_singleton rest first hsp
          subst e1
          rw [unescapeChars_cons_ne '/' _ (by decide)] at hun
          cases hu : unescapeChars first with
          | none =>
            rw [hu] at hun; simp at hun
          | some u =>
            rw [hu] at hun
            simp only [pathUnescape, hu, Option.getD_some] at hfirst
            subst hfirst
            simp only [Option.map_some', Option.some.injEq] at hun
            apply String.ext
            exact hun.symm

theorem parsePattern_time : parsePattern "/time" = some ⟨[['t', 'i', 'm', 'e']], false⟩ := by
  decide

theorem exactRoute_one (h : Handler Time) (segs : List (List Char)) :
    (⟨[("/time", h)]⟩ : ServeMux Time).exactRoute segs =
      if segs = [['t', 'i', 'm', 'e']] then some ("/time", h) else none := by
  unfold ServeMux.exactRoute
  by_cases hs : segs = [['t', 'i', 'm', 'e']]
  · simp [List.find?, parsePattern_time, Pattern.matchesSegs, hs]
  · simp [List.find?, parsePattern_time, Pattern.matchesSegs, hs]

theorem deepestSubtree_one (h : Handler Time) (segs : List (List Char)) :
    ServeMux.deepestSubtree segs [("/time", h)] none = none := by
  simp [ServeMux.deepestSubtree, parsePattern_time]

theorem matchPath_one (h : Handler Time) (path : String) :
    (⟨[("/time", h)]⟩ : ServeMux Time).matchPath path =
      if pathSegments path.toList = [['t', 'i', 'm', 'e']] then some (("/time", h), false, 1)
      else none := by
  unfold ServeMux.matchPath
  rw [exactRoute_one]
  by_cases hs : pathSegments path.toList = [['t', 'i', 'm', 'e']]
  · rw [if_pos hs, if_pos hs]
    show some (_, false, (pathSegments path.toList).length) = _
    rw [hs]
    rfl
  · rw [if_neg hs, if_neg hs]
    show Option.map _ (ServeMux.deepestSubtree _ [("/time", h)] none) = none
    rw [deepestSubtree_one]
    rfl

theorem matchPath_slash_one (h : Handler Time) (path : String) :
    (⟨[("/time", h)]⟩ : ServeMux Time).matchPath (path ++ "/") = none := by
  rw [matchPath_one]
  have hl : (path ++ "/").toList = path.toList ++ ['/'] := by
    show (path ++ "/").data = _
    rw [String.data_append]
    rfl
  rw [hl, if_neg (pathSegments_append_slash_ne _)]

theorem matchOrRedirect_one (L : Lib Time) (h : Handler Time) (path : String)
    (u : Option (String × String)) :
    ServeMux.matchOrRedirect L (⟨[("/time", h)]⟩ : ServeMux Time) path u =
      ((⟨[("/time", h)]⟩ : ServeMux Time).matchPath path, none) := by
  unfold ServeMux.matchOrRedirect
  cases u with
  | none => rfl
  | some up =>
    obtain ⟨upath, uquery⟩ := up
    simp only [matchPath_slash_one, ServeMux.exactMatch]
    split_ifs <;> first | rfl | contradiction

theorem selectedOf_matchPath_one (h : Handler Time) (path : String) :
    ServeMux.selectedOf ((⟨[("/time", h)]⟩ : ServeMux Time).matchPath path) =
      if pathSegments path.toList = [['t', 'i', 'm', 'e']] then .registered "/time" h
      else .notFound := by
  rw [matchPath_one]
  by_cases hs : pathSegments path.toList = [['t', 'i', 'm', 'e']]
  · rw [if_pos hs, if_pos hs]; rfl
  · rw [if_neg hs, if_neg hs]; rfl

theorem Handler_one (L : Lib Time) (h : Handler Time) (r : Request) :
    (⟨[("/time", h)]⟩ : ServeMux Time).Handler L r =
      if r.method = "CONNECT" then
        (if pathSegments r.escapedPath.toList = [['t', 'i', 'm', 'e']] then .registered "/time" h
         else .notFound)
      else if cleanPath r.escapedPath ≠ r.escapedPath then
        .redirect (L.urlString (cleanPath r.escapedPath) r.rawQuery)
      else
        (if pathSegments (cleanPath r.escapedPath).toList = [['t', 'i', 'm', 'e']] then
          .registered "/time" h
         else .notFound) := by
  unfold ServeMux.Handler
  simp only [matchOrRedirect_one, selectedOf_matchPath_one]

theorem Handler_one_cases (L : Lib Time) (h : Handler Time) (r : Request) :
    (⟨[("/time", h)]⟩ : ServeMux Time).Handler L r = .registered "/time" h ∨
    (∃ url, (⟨[("/time", h)]⟩ : ServeMux Time).Handler L r = .redirect url) ∨
    (⟨[("/time", h)]⟩ : ServeMux Time).Handler L r = .notFound := by
  rw [Handler_one]
  split_ifs
  · left; rfl
  · right; right; rfl
  · right; left; exact ⟨_, rfl⟩
  · left; rfl
  · right; right; rfl

theorem Handler_one_time (L : Lib Time) (h : Handler Time) (r : Request)
    (hwf : r.WellFormed) (hp : r.path = "/time") :
    (⟨[("/time", h)]⟩ : ServeMux Time).Handler L r = .registered "/time" h := by
  obtain ⟨rest, hl, hs, hu⟩ := time_escapedPath r hwf hp
  have hseg : pathSegments r.escapedPath.toList = [['t', 'i', 'm', 'e']] := by
    rw [hl]; exact pathSegments_time rest hs hu
  have hclean : cleanPath r.escapedPath = r.escapedPath := by
    apply String.ext
    show cleanPathChars r.escapedPath.toList = r.escapedPath.toList
    rw [hl]; exact cleanPathChars_time rest hs hu
  rw [Handler_one, hclean]
  by_cases hm : r.method = "CONNECT"
  · rw [if_pos hm, if_pos hseg]
  · rw [if_neg hm, if_neg (fun e => e rfl), if_pos hseg]

theorem Handler_one_other (L : Lib Time) (h : Handler Time) (r : Request)
    (hwf : r.WellFormed) (hp : r.path ≠ "/time") :
    (⟨[("/time", h)]⟩ : ServeMux Time).Handler L r =
      if r.method ≠ "CONNECT" ∧ cleanPath r.escapedPath ≠ r.escapedPath then
        .redirect (L.urlString (cleanPath r.escapedPath) r.rawQuery)
      else .notFound := by
  have hseg : pathSegments r.escapedPath.toList ≠ [['t', 'i', 'm', 'e']] :=
    fun e => hp (time_of_pathSegments r hwf e)
  rw [Handler_one]
  by_cases hm : r.method = "CONNECT"
  · rw [if_pos hm, if_neg hseg, if_neg (fun e => e.1 hm)]
  · by_cases hc : cleanPath r.escapedPath = r.escapedPath
    · rw [hc, if_neg hm, if_neg (fun e => e rfl), if_neg hseg, if_neg (fun e => e.2 rfl)]
    · rw [if_neg hm, if_pos hc, if_pos ⟨hm, hc⟩]

theorem main_serving (L : Lib Time) (p : Process Time) :
    main L none p =
      { p with trace := p.trace ++ [.log "Listening...", .listen ":3000"],
               serving := some (":3000", ⟨[("/time", timeHandler L RFC1123)]⟩) } := by
  simp [main, ServeMux.HandleFunc, ServeMux.Handle, ServeMux.NewServeMux, parsePattern_time,
    logPrint, ListenAndServe]

theorem main_listen_fails (L : Lib Time) (e : String) (p : Process Time) :
    main L (some e) p =
      { p with trace := p.trace ++ [.log "Listening...", .listen ":3000"], exit := some 0 } := by
  simp [main, ServeMux.HandleFunc, ServeMux.Handle, ServeMux.NewServeMux, parsePattern_time,
    logPrint, ListenAndServe, mainReturns]

theorem ServeHTTP_star (L : Lib Time) (mux : ServeMux Time) (x : Exchange Time)
    (h : x.r.requestURI = "*") :
    mux.ServeHTTP L x =
      { x with w := (if ServeMux.protoAtLeast11 x.r then x.w.setHeader "Connection" "close"
                     else x.w).WriteHeader 400 } := by
  simp [ServeMux.ServeHTTP, h]

theorem ServeHTTP_other (L : Lib Time) (mux : ServeMux Time) (x : Exchange Time)
    (h : x.r.requestURI ≠ "*") :
    mux.ServeHTTP L x = (mux.Handler L x.r).serve L x := by
  simp [ServeMux.ServeHTTP, h]

theorem requestURI_of_time (r : Request) (hwf : r.WellFormed) (hp : r.path = "/time") :
    r.requestURI ≠ "*" := by
  intro hu
  obtain ⟨rest, hl, _, _⟩ := time_escapedPath r hwf hp
  have h2 := hwf.2.1.mp hu
  rw [h2] at hl
  have h3 : "*".toList.head? = some '/' := by rw [hl]; rfl
  exact absurd h3 (by decide)

theorem ServeHTTP_time (L : Lib Time) (h : Handler Time) (x : Exchange Time)
    (hwf : x.r.WellFormed) (hp : x.r.path = "/time") :
    (⟨[("/time", h)]⟩ : ServeMux Time).ServeHTTP L x = h x := by
  rw [ServeHTTP_other L _ _ (requestURI_of_time x.r hwf hp), Handler_one_time L h x.r hwf hp]
  rfl

theorem serverServe_pass (handler : Handler Time) (x : Exchange Time)
    (hexp : x.r.headerGet "Expect" = "" ∨ expectsContinue x.r = true)
    (hopt : ¬ (x.r.requestURI = "*" ∧ x.r.method = "OPTIONS")) :
    serverServe handler x = handler x := by
  unfold serverServe
  have h1 : ¬ (¬ expectsContinue x.r = true ∧ x.r.headerGet "Expect" ≠ "") := by
    rintro ⟨a, b⟩
    rcases hexp with e | e
    · exact b e
    · exact a e
  rw [if_neg h1, if_neg hopt]

theorem respond_main (L : Lib Time) (args : List String) (environ : List (String × String))
    (r : Request) (c : Clock Time) :
    (main L none (Process.start args environ)).respond L r c =
      some (serverServe ((⟨[("/time", timeHandler L RFC1123)]⟩ : ServeMux Time).ServeHTTP L)
        ⟨ResponseWriter.fresh, r, c⟩) := by
  rw [main_serving]; rfl

/-! ## C1: requests for `/time` -/

theorem reply_of_respond (L : Lib Time) (p : Process Time) (r : Request) (c : Clock Time)
    (x : Exchange Time) (h : p.respond L r c = some x) :
    p.reply L r c = some (clientResponse r x.w) := by
  unfold Process.reply
  rw [h]
  rfl

theorem respond_main_time (L : Lib Time) (args : List String)
    (environ : List (String × String)) (r : Request) (c : Clock Time)
    (hwf : r.WellFormed) (hpath : r.path = "/time")
    (hexp : r.headerGet "Expect" = "" ∨ expectsContinue r = true) :
    (main L none (Process.start args environ)).respond L r c =
      some (timeHandler L RFC1123 ⟨ResponseWriter.fresh, r, c⟩) := by
  rw [respond_main, serverServe_pass _ _ hexp
    (fun h => requestURI_of_time r hwf hpath h.1), ServeHTTP_time L _ _ hwf hpath]

/-- C1, as stated, fails. A `HEAD` request for `/time` runs the handler, but the
server sends its answer without a body, so the body does not start with
`"The time is: "`; and a request for `/time` with the header
`Expect: something` is refused by the server with status 417. -/
theorem head_time_has_no_body :
    headTimeRequest.path = "/time" ∧ headTimeRequest.WellFormed ∧
    ((main demoLib none (Process.start [] [])).reply demoLib headTimeRequest demoClock).map
      (fun resp => (resp.status, resp.body)) = some (200, "") ∧
    (¬ ∃ rest, "" = "The time is: " ++ rest) ∧
    expectTimeRequest.path = "/time" ∧ expectTimeRequest.WellFormed ∧
    ((main demoLib none (Process.start [] [])).reply demoLib expectTimeRequest demoClock).map
      (fun resp => resp.status) = some 417 := by
  refine ⟨rfl, by decide, ?_, ?_, rfl, by decide, ?_⟩
  · unfold Process.reply
    rw [respond_main]
    decide
  · rintro ⟨rest, h⟩
    have h1 := congrArg String.length h
    rw [String.length_append] at h1
    have h2 : "The time is: ".length = 13 := by decide
    have h3 : "".length = 0 := by decide
    omega
  · unfold Process.reply
    rw [respond_main]
    decide

/-- C1 (amended): for every request the server has accepted whose path is
exactly `/time` and which carries no `Expect` header other than
`100-continue`, whatever its method, query string and other headers, the mux
that `main` serves selects the handler `timeHandler(time.RFC1123)`
registered under `/time`; the response has status 200, written implicitly by
the first `Write`, and the handler writes a body that starts with
`"The time is: "`. The client receives that body, except in answer to `HEAD`,
where the server sends status 200 without a body. -/
theorem time_path_served (L : Lib Time) (args : List String)
    (environ : List (String × String)) (r : Request) (c : Clock Time)
    (hwf : r.WellFormed) (hpath : r.path = "/time")
    (hexp : r.headerGet "Expect" = "" ∨ expectsContinue r = true) :
    ∃ mux x resp,
      (main L none (Process.start args environ)).serving = some (":3000", mux) ∧
      mux.Handler L r = .registered "/time" (timeHandler L RFC1123) ∧
      (main L none (Process.start args environ)).respond L r c = some x ∧
      x = timeHandler L RFC1123 ⟨ResponseWriter.fresh, r, c⟩ ∧
      x.w.status = some 200 ∧
      (∃ rest, x.w.bodyString = "The time is: " ++ rest) ∧
      (main L none (Process.start args environ)).reply L r c = some resp ∧
      resp.status = 200 ∧
      (r.method ≠ "HEAD" → resp.body = x.w.bodyString) ∧
      (r.method = "HEAD" → resp.body = "") := by
  have hresp := respond_main_time L args environ r c hwf hpath hexp
  refine ⟨⟨[("/time", timeHandler L RFC1123)]⟩, timeHandler L RFC1123 ⟨ResponseWriter.fresh, r, c⟩,
    clientResponse r (timeHandler L RFC1123 ⟨ResponseWriter.fresh, r, c⟩).w,
    ?_, Handler_one_time L _ r hwf hpath, hresp, rfl, rfl, ?_,
    reply_of_respond L _ r c _ hresp, rfl, ?_, ?_⟩
  · rw [main_serving]
  · refine ⟨L.format (c.now c.reads) RFC1123, ?_⟩
    rw [timeHandler_fresh, bodyString_singleton]
  · intro hm
    have hb : bodyAllowedForStatus
        (timeHandler L RFC1123 ⟨ResponseWriter.fresh, r, c⟩).w.statusCode = true := by
      rw [timeHandler_fresh]; rfl
    simp only [clientResponse, hm, hb, false_or, not_true_eq_false, if_false]
  · intro hm
    simp only [clientResponse, hm, true_or, if_true]

/-- Witness for C1: a `POST` to `/time` with a query string and a header. -/
theorem time_path_served_witness :
    ∃ mux x resp,
      (main demoLib none (Process.start [] [])).serving = some (":3000", mux) ∧
      mux.Handler demoLib postTimeRequest = .registered "/time" (timeHandler demoLib RFC1123) ∧
      (main demoLib none (Process.start [] [])).respond demoLib postTimeRequest demoClock =
        some x ∧
      x = timeHandler demoLib RFC1123 ⟨ResponseWriter.fresh, postTimeRequest, demoClock⟩ ∧
      x.w.status = some 200 ∧
      (∃ rest, x.w.bodyString = "The time is: " ++ rest) ∧
      (main demoLib none (Process.start [] [])).reply demoLib postTimeRequest demoClock =
        some resp ∧
      resp.status = 200 ∧
      (postTimeRequest.method ≠ "HEAD" → resp.body = x.w.bodyString) ∧
      (postTimeRequest.method = "HEAD" → resp.body = "") :=
  time_path_served demoLib [] [] postTimeRequest demoClock (by decide) rfl (by decide)

/-! ## C2: requests for other paths -/

theorem serverServe_clock (handler : Handler Time) (x : Exchange Time)
    (h : (handler x).clock = x.clock) : (serverServe handler x).clock = x.clock := by
  unfold serverServe
  split_ifs
  · rfl
  · rfl
  · exact h

theorem ServeHTTP_one_other_clock (L : Lib Time) (h : Handler Time) (x : Exchange Time)
    (hwf : x.r.WellFormed) (hp : x.r.path ≠ "/time") :
    ((⟨[("/time", h)]⟩ : ServeMux Time).ServeHTTP L x).clock = x.clock := by
  by_cases huri : x.r.requestURI = "*"
  · rw [ServeHTTP_star L _ _ huri]
  · rw [ServeHTTP_other L _ _ huri, Handler_one_other L h x.r hwf hp]
    split_ifs <;> rfl

/-- C2, as stated, fails. A `GET` for `//time` is answered with a redirect to
`/time` (status 307), not with 404; and a `GET` for `/missing` with the
header `Expect: something` is refused by the server with status 417. -/
theorem double_slash_time_redirects :
    (getRequest "//time").path ≠ "/time" ∧
    (getRequest "//time").WellFormed ∧
    ((main demoLib none (Process.start [] [])).reply demoLib (getRequest "//time")
        demoClock).map (fun resp => resp.status) = some 307 ∧
    ((main demoLib none (Process.start [] [])).reply demoLib (getRequest "//time")
        demoClock).map (fun resp => resp.status) ≠ some 404 ∧
    expectMissingRequest.path ≠ "/time" ∧ expectMissingRequest.WellFormed ∧
    ((main demoLib none (Process.start [] [])).reply demoLib expectMissingRequest
        demoClock).map (fun resp => resp.status) = some 417 := by
  refine ⟨by decide, by decide, ?_, ?_, by decide, by decide, ?_⟩
  · unfold Process.reply
    rw [respond_main]; decide
  · unfold Process.reply
    rw [respond_main]; decide
  · unfold Process.reply
    rw [respond_main]; decide

theorem cleanPath_star : cleanPath "*" ≠ "*" := by decide

/-- C2 (amended): for every request the server has accepted whose path is not
`/time`, the mux that `main` serves does not select the time handler and the
clock is not read. When moreover the escaped path of the request is in clean
form and the request carries no `Expect` header other than `100-continue`,
the answer is the router's standard not-found response with status 404. -/
theorem other_path_not_served (L : Lib Time) (args : List String)
    (environ : List (String × String)) (r : Request) (c : Clock Time)
    (hwf : r.WellFormed) (hpath : r.path ≠ "/time") :
    ∃ mux x resp,
      (main L none (Process.start args environ)).serving = some (":3000", mux) ∧
      (∀ pat h, mux.Handler L r ≠ .registered pat h) ∧
      (main L none (Process.start args environ)).respond L r c = some x ∧
      (main L none (Process.start args environ)).reply L r c = some resp ∧
      x.clock = c ∧
      (cleanPath r.escapedPath = r.escapedPath →
        (r.headerGet "Expect" = "" ∨ expectsContinue r = true) →
        x.w = httpError ResponseWriter.fresh "404 page not found" 404 ∧
        resp.status = 404 ∧
        (r.method ≠ "HEAD" → resp.body = "404 page not found\n")) := by
  have hresp := respond_main L args environ r c
  refine ⟨⟨[("/time", timeHandler L RFC1123)]⟩, _, _, ?_, ?_, hresp,
    reply_of_respond L _ r c _ hresp, ?_, ?_⟩
  · rw [main_serving]
  · intro pat h
    rw [Handler_one_other L _ r hwf hpath]
    split_ifs <;> exact fun e => ServeMux.Selected.noConfusion e
  · exact serverServe_clock _ _
      (ServeHTTP_one_other_clock L _ ⟨ResponseWriter.fresh, r, c⟩ hwf hpath)
  · intro hclean hexp
    have hep : r.escapedPath ≠ "*" := by
      intro h
      rw [h] at hclean
      exact cleanPath_star hclean
    have huri : r.requestURI ≠ "*" := fun h => hep (hwf.2.1.mp h)
    have hx : serverServe ((⟨[("/time", timeHandler L RFC1123)]⟩ : ServeMux Time).ServeHTTP L)
        ⟨ResponseWriter.fresh, r, c⟩ =
        NotFoundHandler ⟨ResponseWriter.fresh, r, c⟩ := by
      rw [serverServe_pass _ _ hexp (fun h => huri h.1), ServeHTTP_other L _ _ huri,
        Handler_one_other L _ r hwf hpath, if_neg (fun h => h.2 hclean)]
      rfl
    rw [hx]
    refine ⟨rfl, rfl, ?_⟩
    intro hm
    simp only [clientResponse, hm, false_or]
    rfl

/-- Witness for the amended C2: a `GET` for `/time/`. -/
theorem other_path_not_served_witness :
    ∃ mux x resp,
      (main demoLib none (Process.start [] [])).serving = some (":3000", mux) ∧
      (∀ pat h, mux.Handler demoLib (getRequest "/time/") ≠ .registered pat h) ∧
      (main demoLib none (Process.start [] [])).respond demoLib (getRequest "/time/")
        demoClock = some x ∧
      (main demoLib none (Process.start [] [])).reply demoLib (getRequest "/time/")
        demoClock = some resp ∧
      x.clock = demoClock ∧
      (cleanPath (getRequest "/time/").escapedPath = (getRequest "/time/").escapedPath →
        ((getRequest "/time/").headerGet "Expect" = "" ∨
          expectsContinue (getRequest "/time/") = true) →
        x.w = httpError ResponseWriter.fresh "404 page not found" 404 ∧
        resp.status = 404 ∧
        ((getRequest "/time/").method ≠ "HEAD" → resp.body = "404 page not found\n")) :=
  other_path_not_served demoLib [] [] (getRequest "/time/") demoClock (by decide) (by decide)

/-! ## C4: a failing listen -/

theorem loggedMessages_append (a b : List Event) :
    loggedMessages (a ++ b) = loggedMessages a ++ loggedMessages b := by
  induction a with
  | nil => rfl
  | cons e es ih => cases e <;> simp [loggedMessages, ih]

/-- C4, as stated, fails: when binding `:3000` fails, the trace of `main` ends
with the listen attempt; the only message logged is `Listening...`, logged
before the attempt, and the error text is not logged. -/
theorem listen_failure_not_logged :
    (main demoLib (some "listen tcp :3000: bind: address already in use")
        (Process.start [] [])).trace = [.log "Listening...", .listen ":3000"] ∧
    loggedMessages (main demoLib (some "listen tcp :3000: bind: address already in use")
        (Process.start [] [])).trace = ["Listening..."] ∧
    ¬ ∃ pre msg, (main demoLib (some "listen tcp :3000: bind: address already in use")
        (Process.start [] [])).trace = pre ++ [.listen ":3000", .log msg] := by
  rw [main_listen_fails]
  refine ⟨rfl, rfl, ?_⟩
  rintro ⟨pre, msg, h⟩
  have h1 := congrArg List.getLast? h
  simp [Process.start] at h1

/-- C4 (amended): whenever the listen operation started by `main` fails, `main`
returns at once and the process terminates with exit status 0 without serving
any request; the trace gains the startup message `Listening...` followed by
the listen attempt on `:3000` and nothing else, so the error is not logged. -/
theorem listen_failure_terminates (L : Lib Time) (e : String) (p : Process Time)
    (r : Request) (c : Clock Time) :
    (main L (some e) p).trace = p.trace ++ [.log "Listening...", .listen ":3000"] ∧
    loggedMessages (main L (some e) p).trace = loggedMessages p.trace ++ ["Listening..."] ∧
    (main L (some e) p).exit = some 0 ∧
    (main L (some e) p).serving = p.serving ∧
    (main L (some e) p).defaultMux = p.defaultMux ∧
    (main L (some e) p).respond L r c = none := by
  rw [main_listen_fails]
  refine ⟨rfl, ?_, rfl, rfl, rfl, rfl⟩
  simp [loggedMessages_append, loggedMessages]

/-! ## C10: what `main` sets up -/

/-- C10: `main` builds its own mux whose only registered pattern is `/time`
(the same whatever the process state, command line and environment), appends
to the trace the startup message `Listening...` once and then the listen on
`:3000`, serves that mux on `:3000`, and leaves the default mux, the command
line and the environment as they were. -/
theorem main_setup (L : Lib Time) (p p2 : Process Time) :
    (∃ mux, (main L none p).serving = some (":3000", mux) ∧ mux.patterns = ["/time"] ∧
      mux.routes = [("/time", timeHandler L RFC1123)] ∧
      (main L none p2).serving = some (":3000", mux)) ∧
    (main L none p).trace = p.trace ++ [.log "Listening...", .listen ":3000"] ∧
    loggedMessages (main L none p).trace = loggedMessages p.trace ++ ["Listening..."] ∧
    (main L none p).defaultMux = p.defaultMux ∧
    (main L none p).args = p.args ∧ (main L none p).environ = p.environ ∧
    (main L none p).exit = p.exit := by
  rw [main_serving, main_serving]
  refine ⟨⟨_, rfl, rfl, rfl, rfl⟩, rfl, ?_, rfl, rfl, rfl, rfl⟩
  simp [loggedMessages_append, loggedMessages]

/-! ## The struct variant (main.go, lines 71-90) -/

theorem structHandler_eq (L : Lib Time) (format : String) (x : Exchange Time) :
    (TimeHandlerStruct.mk format).ServeHTTP L x = timeHandler L format x := rfl

theorem mainStruct_eq (L : Lib Time) (listenErr : Option String) (p : Process Time) :
    mainStruct L listenErr p = main L listenErr p := rfl

/-! ## C9: handling a request is stateless -/

theorem serveAll_append (L : Lib Time) (mux : ServeMux Time) (a b : List Request)
    (c : Clock Time) :
    serveAll L mux (a ++ b) c =
      ((serveAll L mux a c).1 ++ (serveAll L mux b (serveAll L mux a c).2).1,
        (serveAll L mux b (serveAll L mux a c).2).2) := by
  induction a generalizing c with
  | nil => simp [serveAll]
  | cons r rs ih => simp [serveAll, ih]

theorem Selected_serve_reading (L : Lib Time) (format : String) (s : ServeMux.Selected Time)
    (hs : s = .registered "/time" (timeHandler L format) ∨ (∃ url, s = .redirect url) ∨
      s = .notFound)
    (w : ResponseWriter) (r : Request) (c c2 : Clock Time) (h : c2.now c2.reads = c.now c.reads) :
    (s.serve L ⟨w, r, c2⟩).w = (s.serve L ⟨w, r, c⟩).w := by
  rcases hs with hs | ⟨url, hs⟩ | hs
  · subst hs
    show (timeHandler L format ⟨w, r, c2⟩).w = (timeHandler L format ⟨w, r, c⟩).w
    rw [timeHandler_w, timeHandler_w]
    show w.Write ("The time is: " ++ L.format (c2.now c2.reads) format) = _
    rw [h]
  · subst hs; rfl
  · subst hs; rfl

theorem ServeHTTP_one_reading (L : Lib Time) (format : String) (w : ResponseWriter)
    (r : Request) (c c2 : Clock Time) (h : c2.now c2.reads = c.now c.reads) :
    ((⟨[("/time", timeHandler L format)]⟩ : ServeMux Time).ServeHTTP L ⟨w, r, c2⟩).w =
      ((⟨[("/time", timeHandler L format)]⟩ : ServeMux Time).ServeHTTP L ⟨w, r, c⟩).w := by
  by_cases huri : r.requestURI = "*"
  · rw [ServeHTTP_star L _ _ huri, ServeHTTP_star L _ _ huri]
  · rw [ServeHTTP_other L _ _ huri, ServeHTTP_other L _ _ huri]
    exact Selected_serve_reading L format _ (Handler_one_cases L _ r) w r c c2 h

/-- C9: the handler returned by `timeHandler(format)` leaves the request and
the clock's readings as they were and only writes to the response writer; and
when the mux built by `main` handles a sequence of requests, the response to
a request that comes after any earlier requests is the response the same
request gets on its own from any clock showing the same reading. -/
theorem handling_is_stateless (L : Lib Time) (format : String) (x : Exchange Time)
    (p : Process Time) (pre : List Request) (r : Request) (c c2 : Clock Time)
    (h : c2.now c2.reads =
      (serveAll L ⟨[("/time", timeHandler L RFC1123)]⟩ pre c).2.now
        (serveAll L ⟨[("/time", timeHandler L RFC1123)]⟩ pre c).2.reads) :
    (timeHandler L format x).r = x.r ∧
    (timeHandler L format x).clock.now = x.clock.now ∧
    (main L none p).serving = some (":3000", ⟨[("/time", timeHandler L RFC1123)]⟩) ∧
    (serveAll L ⟨[("/time", timeHandler L RFC1123)]⟩ (pre ++ [r]) c).1 =
      (serveAll L ⟨[("/time", timeHandler L RFC1123)]⟩ pre c).1 ++
        [((⟨[("/time", timeHandler L RFC1123)]⟩ : ServeMux Time).ServeHTTP L
          ⟨ResponseWriter.fresh, r, c2⟩).w] := by
  refine ⟨rfl, rfl, ?_, ?_⟩
  · rw [main_serving]
  · rw [serveAll_append]
    simp only [serveAll, List.append_cancel_left_eq, List.cons.injEq, and_true]
    exact (ServeHTTP_one_reading L RFC1123 _ r _ c2 h).symm

/-- Witness for C9: two requests for `/time` handled before a third one. -/
theorem handling_is_stateless_witness :
    (timeHandler demoLib RFC1123 ⟨ResponseWriter.fresh, postTimeRequest, demoClock⟩).r =
      postTimeRequest ∧
    (timeHandler demoLib RFC1123 ⟨ResponseWriter.fresh, postTimeRequest, demoClock⟩).clock.now =
      demoClock.now ∧
    (main demoLib none (Process.start [] [])).serving =
      some (":3000", ⟨[("/time", timeHandler demoLib RFC1123)]⟩) ∧
    (serveAll demoLib ⟨[("/time", timeHandler demoLib RFC1123)]⟩
        ([getRequest "/time", postTimeRequest] ++ [getRequest "/time"]) demoClock).1 =
      (serveAll demoLib ⟨[("/time", timeHandler demoLib RFC1123)]⟩
        [getRequest "/time", postTimeRequest] demoClock).1 ++
        [((⟨[("/time", timeHandler demoLib RFC1123)]⟩ : ServeMux Nat).ServeHTTP demoLib
          ⟨ResponseWriter.fresh, getRequest "/time", ⟨fun _ => 2, 7⟩⟩).w] :=
  handling_is_stateless demoLib RFC1123 ⟨ResponseWriter.fresh, postTimeRequest, demoClock⟩
    (Process.start [] []) [getRequest "/time", postTimeRequest] (getRequest "/time") demoClock
    ⟨fun _ => 2, 7⟩ (by decide)

/-! ## The calendar: `Date` undoes `absDate` -/

theorem daysSinceEpoch_form (n400 n100 n4 n1 : Int) (h100 : 0 ≤ n100 ∧ n100 ≤ 3)
    (h4 : 0 ≤ n4 ∧ n4 ≤ 24) (h1 : 0 ≤ n1 ∧ n1 ≤ 3) :
    daysSinceEpoch (1 + 400 * n400 + 100 * n100 + 4 * n4 + n1) =
      146097 * n400 + 36524 * n100 + 1461 * n4 + 365 * n1 := by
  simp only [daysSinceEpoch]
  have e1 : (1 + 400 * n400 + 100 * n100 + 4 * n4 + n1 - 1) / 400 = n400 := by omega
  rw [e1]
  have e2 : (1 + 400 * n400 + 100 * n100 + 4 * n4 + n1 - 1 - 400 * n400) / 100 = n100 := by omega
  rw [e2]
  have e3 : (1 + 400 * n400 + 100 * n100 + 4 * n4 + n1 - 1 - 400 * n400 - 100 * n100) / 4 = n4 := by
    omega
  rw [e3]
  omega

theorem isLeap_form (n400 n100 n4 n1 : Int) (h100 : 0 ≤ n100 ∧ n100 ≤ 3)
    (h4 : 0 ≤ n4 ∧ n4 ≤ 24) (h1 : 0 ≤ n1 ∧ n1 ≤ 3) :
    isLeap (1 + 400 * n400 + 100 * n100 + 4 * n4 + n1) = true ↔
      (n1 = 3 ∧ (n4 ≠ 24 ∨ n100 = 3)) := by
  simp only [isLeap, decide_eq_true_eq]
  omega

theorem yearDay_form (d : Int) :
    ∃ n400 n100 n4 n1 yday : Int,
      yearDay d = (1 + 400 * n400 + 100 * n100 + 4 * n4 + n1, yday) ∧
      d = 146097 * n400 + 36524 * n100 + 1461 * n4 + 365 * n1 + yday ∧
      (0 ≤ n100 ∧ n100 ≤ 3) ∧ (0 ≤ n4 ∧ n4 ≤ 24) ∧ (0 ≤ n1 ∧ n1 ≤ 3) ∧
      0 ≤ yday ∧ yday ≤ 365 ∧ (yday = 365 → n1 = 3 ∧ (n4 ≠ 24 ∨ n100 = 3)) := by
  have hc : 0 ≤ (d - 146097 * (d / 146097)) / 36524 ∧
      (d - 146097 * (d / 146097)) / 36524 ≤ 4 := by omega
  generalize hcd : (d - 146097 * (d / 146097)) / 36524 = c at hc
  have hq : 0 ≤ (d - 146097 * (d / 146097) - 36524 * (c - c / 4) -
      1461 * ((d - 146097 * (d / 146097) - 36524 * (c - c / 4)) / 1461)) / 365 ∧
      (d - 146097 * (d / 146097) - 36524 * (c - c / 4) -
      1461 * ((d - 146097 * (d / 146097) - 36524 * (c - c / 4)) / 1461)) / 365 ≤ 4 := by omega
  generalize hqd : (d - 146097 * (d / 146097) - 36524 * (c - c / 4) -
      1461 * ((d - 146097 * (d / 146097) - 36524 * (c - c / 4)) / 1461)) / 365 = q at hq
  refine ⟨d / 146097, c - c / 4,
    (d - 146097 * (d / 146097) - 36524 * (c - c / 4)) / 1461, q - q / 4,
    d - 146097 * (d / 146097) - 36524 * (c - c / 4) -
      1461 * ((d - 146097 * (d / 146097) - 36524 * (c - c / 4)) / 1461) - 365 * (q - q / 4),
    ?_, ?_, ?_, ?_, ?_, ?_, ?_, ?_⟩
  · simp only [yearDay, hcd, hqd]
  · omega
  · omega
  · omega
  · omega
  · omega
  · omega
  · omega

theorem monthDay_spec (leap : Bool) (yday : Int) (h0 : 0 ≤ yday)
    (h1 : yday < if leap then 366 else 365) :
    1 ≤ (monthDay leap yday).1 ∧ (monthDay leap yday).1 ≤ 12 ∧
    1 ≤ (monthDay leap yday).2 ∧
    (monthDay leap yday).2 ≤
      (if (monthDay leap yday).1 = 2 ∧ leap then 29
       else daysBefore (monthDay leap yday).1 - daysBefore ((monthDay leap yday).1 - 1)) ∧
    daysBefore ((monthDay leap yday).1 - 1) +
      (if leap ∧ (monthDay leap yday).1 ≥ 3 then 1 else 0) +
      ((monthDay leap yday).2 - 1) = yday := by
  unfold monthDay
  by_cases hfeb : leap = true ∧ yday = 31 + 29 - 1
  · rw [if_pos hfeb]
    obtain ⟨hl, hy⟩ := hfeb
    subst hl
    simp [daysBefore, hy]
  · rw [if_neg hfeb]
    dsimp only
    generalize hday : (if leap = true ∧ yday > 31 + 29 - 1 then yday - 1 else yday) = day
    have hd0 : 0 ≤ day := by
      rw [← hday]; split_ifs <;> omega
    have hd1 : day ≤ 364 := by
      rw [← hday]
      cases leap
      · simp at h1 ⊢; omega
      · simp at h1 ⊢; split_ifs <;> omega
    obtain ⟨m, hm⟩ : ∃ m : Nat, day / 31 = (m : Int) := ⟨(day / 31).toNat, by omega⟩
    have hm11 : m ≤ 11 := by omega
    rw [hm]
    simp only [Int.toNat_ofNat]
    cases leap
    · simp only [Bool.false_eq_true, false_and, if_false] at hday ⊢
      interval_cases m <;> simp only [daysBefore] <;> split_ifs <;>
        simp only [daysBefore] <;> omega
    · simp only [true_and, and_true] at hday hfeb ⊢
      have hy : yday ≠ 59 := by omega
      interval_cases m <;> simp only [daysBefore] <;> split_ifs at hday ⊢ <;>
        simp only [daysBefore] <;> omega

theorem absDate_spec (d : Int) :
    1 ≤ (absDate d).2.1 ∧ (absDate d).2.1 ≤ 12 ∧ 1 ≤ (absDate d).2.2 ∧
    (absDate d).2.2 ≤ daysIn (absDate d).2.1 (absDate d).1 ∧
    dateDays (absDate d).1 (absDate d).2.1 (absDate d).2.2 = d := by
  obtain ⟨n400, n100, n4, n1, yday, hyd, hd, h100, h4, h1, hy0, hy1, hy2⟩ := yearDay_form d
  have hleap := isLeap_form n400 n100 n4 n1 h100 h4 h1
  have hlt : yday < if isLeap (1 + 400 * n400 + 100 * n100 + 4 * n4 + n1) then 366 else 365 := by
    by_cases hl : isLeap (1 + 400 * n400 + 100 * n100 + 4 * n4 + n1) = true
    · rw [if_pos hl]; omega
    · rw [if_neg hl]
      have : ¬ (n1 = 3 ∧ (n4 ≠ 24 ∨ n100 = 3)) := fun h => hl (hleap.mpr h)
      by_cases h365 : yday = 365
      · exact absurd (hy2 h365) this
      · omega
  have hmd := monthDay_spec (isLeap (1 + 400 * n400 + 100 * n100 + 4 * n4 + n1)) yday hy0 hlt
  have hse := daysSinceEpoch_form n400 n100 n4 n1 h100 h4 h1
  simp only [absDate, hyd, dateDays, daysIn]
  obtain ⟨a1, a2, a3, a4, a5⟩ := hmd
  refine ⟨a1, a2, a3, a4, ?_⟩
  rw [hse]
  omega

theorem daysIn_le (month : Nat) (year : Int) (h1 : 1 ≤ month) (h2 : month ≤ 12) :
    daysIn month year ≤ 31 := by
  unfold daysIn
  interval_cases month <;> simp only [daysBefore] <;> split_ifs <;> omega

theorem dateUnix_wall (t : GoTime) :
    dateUnix (absDate t.wallDays).1 (absDate t.wallDays).2.1 (absDate t.wallDays).2.2
      (t.secOfDay / 3600) (t.secOfDay % 3600 / 60) (t.secOfDay % 60) = t.wallSec := by
  have h := (absDate_spec t.wallDays).2.2.2.2
  unfold dateUnix
  rw [h]
  simp only [GoTime.wallDays, GoTime.secOfDay, unixEpochDays]
  omega

theorem secOfDay_lt (t : GoTime) : t.secOfDay < 86400 := by
  simp only [GoTime.secOfDay]
  omega

/-! ## The text of a rendered reading is read back field by field -/

theorem digitChar_toNat (k : Nat) : (digitChar k).toNat = 48 + k % 10 := by
  unfold digitChar
  have h : k % 10 < 10 := Nat.mod_lt _ (by decide)
  generalize k % 10 = j at h
  interval_cases j <;> rfl

theorem isDigitChar_digitChar (k : Nat) : isDigitChar (digitChar k) = true := by
  simp only [isDigitChar, digitChar_toNat, decide_eq_true_eq]
  omega

theorem digitVal_digitChar (k : Nat) : digitVal (digitChar k) = k % 10 := by
  simp only [digitVal, digitChar_toNat]
  omega

theorem digitChar_ne_space (k : Nat) : digitChar k ≠ ' ' := by
  intro h
  have := congrArg Char.toNat h
  rw [digitChar_toNat] at this
  simp at this
  omega

theorem getnum_twoDigits (n : Nat) (hn : n < 100) (rest : List Char) (fixed : Bool) :
    getnum (twoDigits n ++ rest) fixed = some (n, rest) := by
  simp only [twoDigits, getnum, List.cons_append, List.nil_append, isDigitChar_digitChar,
    digitVal_digitChar, not_true_eq_false, if_false]
  congr 2
  omega

theorem getnumBelow_twoDigits (n bound : Nat) (hn : n < 100) (hb : n < bound) (rest : List Char)
    (fixed : Bool) :
    getnumBelow (twoDigits n ++ rest) fixed bound = some (n, rest) := by
  rw [getnumBelow, getnum_twoDigits n hn]
  show (if bound ≤ n then none else some (n, rest)) = some (n, rest)
  rw [if_neg (by omega)]

theorem cutspace_of_ne (c : Char) (cs : List Char) (h : c ≠ ' ') :
    cutspace (c :: cs) = c :: cs := by
  simp [cutspace, h]

theorem skip_space (c : Char) (cs : List Char) (h : c ≠ ' ') :
    skip (' ' :: c :: cs) " ".toList = some (c :: cs) := by
  show skipAux false (' ' :: c :: cs) [' '] = _
  simp [skipAux, cutspace, h]

theorem skip_comma_space (c : Char) (cs : List Char) (h : c ≠ ' ') :
    skip (',' :: ' ' :: c :: cs) ", ".toList = some (c :: cs) := by
  show skipAux false (',' :: ' ' :: c :: cs) [',', ' '] = _
  simp [skipAux, cutspace, h]

theorem skip_colon (cs : List Char) :
    skip (':' :: cs) ":".toList = some cs := by
  show skipAux false (':' :: cs) [':'] = _
  simp [skipAux]

theorem lookup_shortDayNames (i : Nat) (hi : i < 7) (rest : List Char) :
    lookup shortDayNames (shortDayNames.getD i [] ++ rest) = some (i, rest) := by
  have hs : shortDayNames = [['S', 'u', 'n'], ['M', 'o', 'n'], ['T', 'u', 'e'], ['W', 'e', 'd'],
    ['T', 'h', 'u'], ['F', 'r', 'i'], ['S', 'a', 't']] := rfl
  rw [hs]
  interval_cases i <;> simp [lookup, lookupFrom, matchFold]

theorem lookup_shortMonthNames (i : Nat) (hi : i < 12) (rest : List Char) :
    lookup shortMonthNames (shortMonthNames.getD i [] ++ rest) = some (i, rest) := by
  have hs : shortMonthNames = [['J', 'a', 'n'], ['F', 'e', 'b'], ['M', 'a', 'r'],
    ['A', 'p', 'r'], ['M', 'a', 'y'], ['J', 'u', 'n'], ['J', 'u', 'l'], ['A', 'u', 'g'],
    ['S', 'e', 'p'], ['O', 'c', 't'], ['N', 'o', 'v'], ['D', 'e', 'c']] := rfl
  rw [hs]
  interval_cases i <;> simp [lookup, lookupFrom, matchFold]

theorem shortMonthNames_cons (i : Nat) (hi : i < 12) :
    ∃ c cs, shortMonthNames.getD i [] = c :: cs ∧ c ≠ ' ' := by
  have hs : shortMonthNames = [['J', 'a', 'n'], ['F', 'e', 'b'], ['M', 'a', 'r'],
    ['A', 'p', 'r'], ['M', 'a', 'y'], ['J', 'u', 'n'], ['J', 'u', 'l'], ['A', 'u', 'g'],
    ['S', 'e', 'p'], ['O', 'c', 't'], ['N', 'o', 'v'], ['D', 'e', 'c']] := rfl
  rw [hs]
  interval_cases i <;> exact ⟨_, _, rfl, by decide⟩

theorem digitChar_ne_sign (k : Nat) : digitChar k ≠ '-' ∧ digitChar k ≠ '+' := by
  constructor <;>
  · intro h
    have := congrArg Char.toNat h
    rw [digitChar_toNat] at this
    simp at this
    omega

theorem leadingIntFrom_digit (x k : Nat) (cs : List Char) (hx : x ≤ 100000) :
    leadingIntFrom x (digitChar k :: cs) = leadingIntFrom (x * 10 + k % 10) cs := by
  rw [leadingIntFrom]
  simp only [isDigitChar_digitChar, not_true_eq_false, if_false, digitVal_digitChar]
  have h1 : ¬ (x > 2 ^ 63 / 10) := by norm_num; omega
  have h2 : ¬ (x * 10 + k % 10 > 2 ^ 63) := by norm_num; omega
  rw [if_neg h1]
  simp only [h2, if_false]

theorem atoi_fourDigits (a b : Nat) (ha : a < 100) (hb : b < 100) :
    atoi (twoDigits a ++ twoDigits b) = some ((a * 100 + b : Nat) : Int) := by
  have hs := digitChar_ne_sign (a / 10)
  simp only [atoi, twoDigits, List.cons_append, List.nil_append, List.head?_cons,
    Option.some.injEq, hs.1, hs.2, or_self, if_false, leadingInt]
  rw [leadingIntFrom_digit _ _ _ (by omega), leadingIntFrom_digit _ _ _ (by omega),
    leadingIntFrom_digit _ _ _ (by omega), leadingIntFrom_digit _ _ _ (by omega)]
  simp only [leadingIntFrom, ne_eq, not_true_eq_false, if_false, decide_False, Bool.false_eq_true]
  congr 2
  omega

theorem parseYear_fourDigits (a b : Nat) (ha : a < 100) (hb : b < 100) (rest : List Char) :
    parseYear (twoDigits a ++ twoDigits b ++ rest) = some (((a * 100 + b : Nat) : Int), rest) := by
  have h4 : (twoDigits a ++ twoDigits b ++ rest).take 4 = twoDigits a ++ twoDigits b := by
    simp [twoDigits]
  have hd : (twoDigits a ++ twoDigits b ++ rest).drop 4 = rest := by
    simp [twoDigits]
  have hl : ¬ ((twoDigits a ++ twoDigits b ++ rest).length < 4) := by
    simp [twoDigits]
  have hh : (twoDigits a ++ twoDigits b ++ rest).head?.map isDigitChar = some true := by
    simp [twoDigits, isDigitChar_digitChar]
  unfold parseYear
  rw [if_neg (fun h => h.elim hl (fun h2 => h2 hh)), h4, hd, atoi_fourDigits a b ha hb]
  rfl

theorem twoDigits_cons (n : Nat) : twoDigits n = digitChar (n / 10) :: [digitChar n] := rfl

theorem parseDateFields_render (wd day mi a b : Nat) (hwd : wd < 7) (hday : day < 100)
    (hmi : mi < 12) (ha : a < 100) (hb : b < 100) (c : Char) (cs : List Char) (hc : c ≠ ' ') :
    parseDateFields (shortDayNames.getD wd [] ++ (", ".toList ++ (twoDigits day ++
      (" ".toList ++ (shortMonthNames.getD mi [] ++ (" ".toList ++ (twoDigits a ++ twoDigits b ++
        (" ".toList ++ c :: cs)))))))) =
      some (day, mi + 1, ((a * 100 + b : Nat) : Int), c :: cs) := by
  obtain ⟨mc, mcs, hm, hmc⟩ := shortMonthNames_cons mi hmi
  unfold parseDateFields
  rw [lookup_shortDayNames wd hwd]
  simp only [Option.some_bind]
  have e1 : skip (", ".toList ++ (twoDigits day ++ (" ".toList ++ (shortMonthNames.getD mi [] ++
      (" ".toList ++ (twoDigits a ++ twoDigits b ++ (" ".toList ++ c :: cs))))))) ", ".toList =
      some (twoDigits day ++ (" ".toList ++ (shortMonthNames.getD mi [] ++
      (" ".toList ++ (twoDigits a ++ twoDigits b ++ (" ".toList ++ c :: cs)))))) :=
    skip_comma_space _ _ (digitChar_ne_space _)
  rw [e1]
  simp only [Option.some_bind]
  rw [getnum_twoDigits day hday]
  simp only [Option.some_bind]
  have e2 : skip (" ".toList ++ (shortMonthNames.getD mi [] ++
      (" ".toList ++ (twoDigits a ++ twoDigits b ++ (" ".toList ++ c :: cs))))) " ".toList =
      some (shortMonthNames.getD mi [] ++
      (" ".toList ++ (twoDigits a ++ twoDigits b ++ (" ".toList ++ c :: cs)))) := by
    rw [hm]
    exact skip_space _ _ hmc
  rw [e2]
  simp only [Option.some_bind]
  rw [lookup_shortMonthNames mi hmi]
  simp only [Option.some_bind]
  have e3 : skip (" ".toList ++ (twoDigits a ++ twoDigits b ++ (" ".toList ++ c :: cs)))
      " ".toList = some (twoDigits a ++ twoDigits b ++ (" ".toList ++ c :: cs)) :=
    skip_space _ _ (digitChar_ne_space _)
  rw [e3]
  simp only [Option.some_bind]
  rw [parseYear_fourDigits a b ha hb]
  simp only [Option.some_bind]
  have e4 : skip (" ".toList ++ c :: cs) " ".toList = some (c :: cs) := skip_space _ _ hc
  rw [e4]
  rfl

theorem parseFraction_space (cs : List Char) : parseFraction (' ' :: cs) = (0, ' ' :: cs) := by
  cases cs with
  | nil => rfl
  | cons c1 cs =>
    simp only [parseFraction]
    rw [if_neg]
    rintro ⟨h | h, _⟩ <;> exact absurd h (by decide)

theorem parseClockFields_render (h m s : Nat) (hh : h < 24) (hm : m < 60) (hs : s < 60)
    (c : Char) (cs : List Char) (hc : c ≠ ' ') :
    parseClockFields (twoDigits h ++ (":".toList ++ (twoDigits m ++ (":".toList ++
      (twoDigits s ++ (" ".toList ++ c :: cs)))))) = some (h, m, s, 0, c :: cs) := by
  unfold parseClockFields
  rw [getnumBelow_twoDigits h 24 (by omega) hh]
  simp only [Option.some_bind]
  have e1 : skip (":".toList ++ (twoDigits m ++ (":".toList ++
      (twoDigits s ++ (" ".toList ++ c :: cs))))) ":".toList =
      some (twoDigits m ++ (":".toList ++ (twoDigits s ++ (" ".toList ++ c :: cs)))) :=
    skip_colon _
  rw [e1]
  simp only [Option.some_bind]
  rw [getnumBelow_twoDigits m 60 (by omega) hm]
  simp only [Option.some_bind]
  have e2 : skip (":".toList ++ (twoDigits s ++ (" ".toList ++ c :: cs))) ":".toList =
      some (twoDigits s ++ (" ".toList ++ c :: cs)) := skip_colon _
  rw [e2]
  simp only [Option.some_bind]
  rw [getnumBelow_twoDigits s 60 (by omega) hs]
  simp only [Option.some_bind]
  have e3 : parseFraction (" ".toList ++ c :: cs) = (0, ' ' :: c :: cs) :=
    parseFraction_space _
  rw [e3]
  have e4 : skip (' ' :: c :: cs) " ".toList = some (c :: cs) := skip_space _ _ hc
  simp only [e4]
  rfl

theorem appendInt_two (n : Nat) (h : n < 100) : appendInt (n : Int) 2 = twoDigits n := by
  unfold appendInt
  simp [h]

theorem appendInt_four (n : Nat) (h : n < 10000) :
    appendInt (n : Int) 4 = twoDigits (n / 100) ++ twoDigits (n % 100) := by
  unfold appendInt
  simp [h]

theorem countUpper_pos_head (n : Nat) (v : List Char) (h : 0 < countUpper n v) :
    ∃ c cs, v = c :: cs ∧ c ≠ ' ' := by
  cases n with
  | zero => simp [countUpper] at h
  | succ n =>
    cases v with
    | nil => simp [countUpper] at h
    | cons c cs =>
      refine ⟨c, cs, rfl, ?_⟩
      intro hc
      subst hc
      simp [countUpper] at h

theorem parseTimeZone_head (v : List Char) (n : Nat) (h : parseTimeZone v = some n) :
    ∃ c cs, v = c :: cs ∧ c ≠ ' ' := by
  cases v with
  | nil => simp [parseTimeZone] at h
  | cons c cs =>
    refine ⟨c, cs, rfl, ?_⟩
    intro hc
    subst hc
    unfold parseTimeZone at h
    by_cases h1 : (' ' :: cs).length < 3
    · rw [if_pos h1] at h
      exact absurd h (by simp)
    · rw [if_neg h1] at h
      have h2 : ¬ ((' ' :: cs).length ≥ 4 ∧ (List.take 4 (' ' :: cs) = "ChST".toList ∨
          List.take 4 (' ' :: cs) = "MeST".toList)) := by
        rintro ⟨_, h | h⟩ <;> simp at h
      rw [if_neg h2] at h
      have h3 : ¬ (List.take 3 (' ' :: cs) = "GMT".toList) := by
        intro h; simp at h
      rw [if_neg h3] at h
      have h4 : ¬ ((' ' :: cs).head? = some '+' ∨ (' ' :: cs).head? = some '-') := by
        rintro (h | h) <;> simp at h
      rw [if_neg h4] at h
      have h5 : countUpper 6 (' ' :: cs) = 0 := by simp [countUpper]
      rw [h5] at h
      simp at h

theorem parseZone_head (lookupName : String → Int → Option Int) (v : List Char) (u o : Int)
    (h : parseZone lookupName v u = some o) : ∃ c cs, v = c :: cs ∧ c ≠ ' ' := by
  unfold parseZone at h
  by_cases h1 : v.length ≥ 3 ∧ v.take 3 = "UTC".toList
  · cases v with
    | nil => simp at h1
    | cons c cs =>
      refine ⟨c, cs, rfl, ?_⟩
      intro hc
      subst hc
      have := h1.2
      simp at this
  · rw [if_neg h1] at h
    cases hz : parseTimeZone v with
    | none => rw [hz] at h; simp at h
    | some n => exact parseTimeZone_head v n hz

theorem parseDateFields_text (wd day mi a b : Nat) (hwd : wd < 7) (hday : day < 100)
    (hmi : mi < 12) (ha : a < 100) (hb : b < 100) (rest : List Char)
    (hrest : ∃ c cs, rest = c :: cs ∧ c ≠ ' ') :
    parseDateFields (shortDayNames.getD wd [] ++ (", ".toList ++ (twoDigits day ++
      (" ".toList ++ (shortMonthNames.getD mi [] ++ (" ".toList ++ (twoDigits a ++ twoDigits b ++
        (" ".toList ++ rest)))))))) =
      some (day, mi + 1, ((a * 100 + b : Nat) : Int), rest) := by
  obtain ⟨c, cs, rfl, hc⟩ := hrest
  exact parseDateFields_render wd day mi a b hwd hday hmi ha hb c cs hc

theorem parseClockFields_text (h m s : Nat) (hh : h < 24) (hm : m < 60) (hs : s < 60)
    (rest : List Char) (hrest : ∃ c cs, rest = c :: cs ∧ c ≠ ' ') :
    parseClockFields (twoDigits h ++ (":".toList ++ (twoDigits m ++ (":".toList ++
      (twoDigits s ++ (" ".toList ++ rest)))))) = some (h, m, s, 0, rest) := by
  obtain ⟨c, cs, rfl, hc⟩ := hrest
  exact parseClockFields_render h m s hh hm hs c cs hc

theorem parseRFC1123_of_fields (lookupName : String → Int → Option Int) (v v8 z : List Char)
    (day mo h m s ns : Nat) (yr off : Int)
    (hd : parseDateFields v = some (day, mo, yr, v8))
    (hc : parseClockFields v8 = some (h, m, s, ns, z))
    (hz : parseZone lookupName z (dateUnix yr mo (day : Nat) h m s) = some off)
    (hday : ¬ ((day : Int) < 1 ∨ (day : Int) > daysIn mo yr)) :
    parseRFC1123 lookupName v = some (dateUnix yr mo (day : Nat) h m s - off, ns) := by
  unfold parseRFC1123
  rw [hd, Option.some_bind]
  simp only []
  rw [hc, Option.some_bind]
  simp only []
  rw [hz, Option.some_bind, if_neg hday]

theorem twoDigits_append_head (n : Nat) (rest : List Char) :
    ∃ c cs, twoDigits n ++ rest = c :: cs ∧ c ≠ ' ' :=
  ⟨digitChar (n / 10), digitChar n :: rest, rfl, digitChar_ne_space _⟩

theorem parseRFC1123_formatRFC1123 (lookupName : String → Int → Option Int) (t : GoTime)
    (hyear : 0 ≤ (absDate t.wallDays).1 ∧ (absDate t.wallDays).1 ≤ 9999)
    (hzone : parseZone lookupName (zoneText t) t.wallSec = some t.zoneOffset) :
    parseRFC1123 lookupName (formatRFC1123 t) = some (t.unixSec, 0) := by
  have hzh := parseZone_head _ _ _ _ hzone
  obtain ⟨hm1, hm12, hd1, hdin, hdays⟩ := absDate_spec t.wallDays
  have hd31 := daysIn_le _ (absDate t.wallDays).1 hm1 hm12
  have hwall := dateUnix_wall t
  obtain ⟨dn, hdn⟩ : ∃ dn : Nat, (absDate t.wallDays).2.2 = (dn : Int) :=
    ⟨(absDate t.wallDays).2.2.toNat, (Int.toNat_of_nonneg (by omega)).symm⟩
  obtain ⟨yn, hyn⟩ : ∃ yn : Nat, (absDate t.wallDays).1 = (yn : Int) :=
    ⟨(absDate t.wallDays).1.toNat, (Int.toNat_of_nonneg hyear.1).symm⟩
  obtain ⟨mi, hmi⟩ : ∃ mi : Nat, (absDate t.wallDays).2.1 = mi + 1 :=
    ⟨(absDate t.wallDays).2.1 - 1, by omega⟩
  have hs := secOfDay_lt t
  have hwd : weekday t.wallDays < 7 := by unfold weekday; omega
  simp only [hdn, hyn, hmi] at hwall hdin hd31 hd1
  have hfmt : formatRFC1123 t = shortDayNames.getD (weekday t.wallDays) [] ++ (", ".toList ++
      (twoDigits dn ++ (" ".toList ++ (shortMonthNames.getD mi [] ++ (" ".toList ++
      (twoDigits (yn / 100) ++ twoDigits (yn % 100) ++ (" ".toList ++
      (twoDigits (t.secOfDay / 3600) ++ (":".toList ++ (twoDigits (t.secOfDay % 3600 / 60) ++
      (":".toList ++ (twoDigits (t.secOfDay % 60) ++ (" ".toList ++ zoneText t))))))))))))) := by
    simp only [formatRFC1123, hdn, hyn, hmi, Nat.add_sub_cancel, List.append_assoc]
    rw [appendInt_two dn (by omega), appendInt_four yn (by omega),
      appendInt_two _ (by omega), appendInt_two _ (by omega), appendInt_two _ (by omega)]
    simp only [List.append_assoc]
  rw [hfmt]
  have hdate := parseDateFields_text (weekday t.wallDays) dn mi (yn / 100) (yn % 100) hwd
    (by omega) (by omega) (by omega) (by omega)
    (twoDigits (t.secOfDay / 3600) ++ (":".toList ++ (twoDigits (t.secOfDay % 3600 / 60) ++
      (":".toList ++ (twoDigits (t.secOfDay % 60) ++ (" ".toList ++ zoneText t))))))
    (twoDigits_append_head _ _)
  have hclock := parseClockFields_text (t.secOfDay / 3600) (t.secOfDay % 3600 / 60)
    (t.secOfDay % 60) (by omega) (by omega) (by omega) (zoneText t) hzh
  have hy : ((yn / 100 * 100 + yn % 100 : Nat) : Int) = (yn : Int) := by omega
  rw [hy] at hdate
  rw [← hwall] at hzone
  have hdd : ¬ ((dn : Int) < 1 ∨ (dn : Int) > daysIn (mi + 1) yn) := by omega
  have hfin := parseRFC1123_of_fields lookupName _ _ _ _ _ _ _ _ 0 _ _ hdate hclock hzone hdd
  rw [hwall] at hfin
  have hu : t.wallSec - t.zoneOffset = t.unixSec := by
    simp only [GoTime.wallSec]
    omega
  rw [hu] at hfin
  exact hfin

/-! ## C8 and C7: the timestamp read back from the body -/

theorem timestampOf_timeHandler (other : GoTime → String → String)
    (lookupName : String → Int → Option Int) (r : Request) (c : Clock GoTime) :
    timestampOf lookupName (timeHandler (goLib other) RFC1123 ⟨ResponseWriter.fresh, r, c⟩).w =
      parseRFC1123 lookupName (formatRFC1123 (c.now c.reads)) := by
  rw [timeHandler_fresh, timestampOf, bodyString_singleton]
  have hf : (goLib other).format (c.now c.reads) RFC1123 =
      String.mk (formatRFC1123 (c.now c.reads)) := by
    simp [goLib]
  rw [hf]
  have hl : ("The time is: " ++ String.mk (formatRFC1123 (c.now c.reads))).toList =
      "The time is: ".toList ++ formatRFC1123 (c.now c.reads) := by
    show ("The time is: " ++ String.mk (formatRFC1123 (c.now c.reads))).data = _
    rw [String.data_append]
    rfl
  rw [hl]
  exact congrArg _ (List.drop_left' rfl)

/-- C8, as stated, fails. A reading in Tehran is rendered with the zone
`+0330`, which the layout's zone field does not accept, so the body does not
parse even for a reader in Tehran; a reading in the year 10000 is rendered
with a five-digit year and does not parse; and a reading in New York (`EST`)
parsed by a reader whose location is UTC gives an instant 18000 seconds
before the reading. -/
theorem body_timestamp_not_always_read_back :
    timestampOf tehranLookup (timeHandler goDemoLib RFC1123
      ⟨ResponseWriter.fresh, getRequest "/time", ⟨fun _ => tehranReading, 0⟩⟩).w = none ∧
    tehranLookup tehranReading.zoneName tehranReading.wallSec = some tehranReading.zoneOffset ∧
    timestampOf utcLookup (timeHandler goDemoLib RFC1123
      ⟨ResponseWriter.fresh, getRequest "/time", ⟨fun _ => year10000Reading, 0⟩⟩).w = none ∧
    timestampOf utcLookup (timeHandler goDemoLib RFC1123
      ⟨ResponseWriter.fresh, getRequest "/time", ⟨fun _ => estReading, 0⟩⟩).w =
        some (estReading.unixSec - 18000, 0) := by
  refine ⟨?_, by decide, ?_, ?_⟩
  · rw [goDemoLib, timestampOf_timeHandler]; decide
  · rw [goDemoLib, timestampOf_timeHandler]; decide
  · rw [goDemoLib, timestampOf_timeHandler]; decide

/-- C8 (amended): for every clock reading `t` used by the `/time` handler
whose year on the local calendar lies in 0..9999 and whose zone field, read
by the parser in its location, gives the offset in effect at `t`, the part of
the body after `"The time is: "` parses in the layout `time.RFC1123`, and the
parsed instant is `t` truncated to whole seconds, which is at most 5 seconds
(less than one second) before `t`. -/
theorem body_timestamp_read_back (other : GoTime → String → String)
    (lookupName : String → Int → Option Int) (r : Request) (c : Clock GoTime)
    (hnsec : (c.now c.reads).nsec < 1000000000)
    (hyear : 0 ≤ (c.now c.reads).year ∧ (c.now c.reads).year ≤ 9999)
    (hzone : parseZone lookupName (zoneText (c.now c.reads)) (c.now c.reads).wallSec =
      some (c.now c.reads).zoneOffset) :
    timestampOf lookupName (timeHandler (goLib other) RFC1123 ⟨ResponseWriter.fresh, r, c⟩).w =
      some ((c.now c.reads).unixSec, 0) ∧
    nanosOf ((c.now c.reads).unixSec, 0) ≤
      nanosOf ((c.now c.reads).unixSec, (c.now c.reads).nsec) ∧
    nanosOf ((c.now c.reads).unixSec, (c.now c.reads).nsec) -
      nanosOf ((c.now c.reads).unixSec, 0) < 1000000000 ∧
    nanosOf ((c.now c.reads).unixSec, (c.now c.reads).nsec) -
      nanosOf ((c.now c.reads).unixSec, 0) ≤ 5 * 1000000000 := by
  refine ⟨?_, ?_, ?_, ?_⟩
  · rw [timestampOf_timeHandler]
    exact parseRFC1123_formatRFC1123 lookupName _ hyear hzone
  · simp only [nanosOf]; omega
  · simp only [nanosOf]; omega
  · simp only [nanosOf]; omega

/-- Witness for the amended C8: the reading 01:00:00 `EST` read back by a
reader in New York. -/
theorem body_timestamp_read_back_witness :
    timestampOf newYorkLookup (timeHandler (goLib (fun _ _ => "")) RFC1123
      ⟨ResponseWriter.fresh, getRequest "/time", fallBackClock⟩).w =
      some ((fallBackClock.now fallBackClock.reads).unixSec, 0) ∧
    nanosOf ((fallBackClock.now fallBackClock.reads).unixSec, 0) ≤
      nanosOf ((fallBackClock.now fallBackClock.reads).unixSec,
        (fallBackClock.now fallBackClock.reads).nsec) ∧
    nanosOf ((fallBackClock.now fallBackClock.reads).unixSec,
        (fallBackClock.now fallBackClock.reads).nsec) -
      nanosOf ((fallBackClock.now fallBackClock.reads).unixSec, 0) < 1000000000 ∧
    nanosOf ((fallBackClock.now fallBackClock.reads).unixSec,
        (fallBackClock.now fallBackClock.reads).nsec) -
      nanosOf ((fallBackClock.now fallBackClock.reads).unixSec, 0) ≤ 5 * 1000000000 :=
  body_timestamp_read_back (fun _ _ => "") newYorkLookup (getRequest "/time") fallBackClock
    (by decide) (by decide) (by decide)

theorem serveAll_two_time (L : Lib Time) (r1 r2 : Request) (c : Clock Time)
    (hwf1 : r1.WellFormed) (hp1 : r1.path = "/time")
    (hwf2 : r2.WellFormed) (hp2 : r2.path = "/time") :
    (serveAll L ⟨[("/time", timeHandler L RFC1123)]⟩ [r1, r2] c).1 =
      [(timeHandler L RFC1123 ⟨ResponseWriter.fresh, r1, c⟩).w,
       (timeHandler L RFC1123 ⟨ResponseWriter.fresh, r2, ⟨c.now, c.reads + 1⟩⟩).w] := by
  simp only [serveAll]
  rw [ServeHTTP_time L _ ⟨ResponseWriter.fresh, r1, c⟩ hwf1 hp1]
  rw [timeHandler_clock]
  rw [ServeHTTP_time L _ ⟨ResponseWriter.fresh, r2, ⟨c.now, c.reads + 1⟩⟩ hwf2 hp2]

/-- C7, as stated, fails: two sequential requests in New York, one second
apart across the end of daylight saving time, get the bodies `01:59:59 EDT`
and `01:00:00 EST`; a reader whose location is UTC parses both, and the first
timestamp is later than the second although the first reading is earlier. -/
theorem sequential_timestamps_can_decrease :
    (fallBackClock.now 0).notAfter (fallBackClock.now 1) ∧
    (serveAll goDemoLib ⟨[("/time", timeHandler goDemoLib RFC1123)]⟩
        [getRequest "/time", getRequest "/time"] fallBackClock).1.map (timestampOf utcLookup) =
      [some (1730599199, 0), some (1730595600, 0)] ∧
    ¬ (nanosOf (1730599199, 0) ≤ nanosOf (1730595600, 0)) := by
  refine ⟨by decide, ?_, by decide⟩
  rw [serveAll_two_time goDemoLib _ _ _ (by decide) rfl (by decide) rfl]
  simp only [List.map, goDemoLib]
  rw [timestampOf_timeHandler, timestampOf_timeHandler]
  decide

/-- C7 (amended): for two sequential requests to `/time` whose clock readings
(the first not later than the second) both have a year in 0..9999 and a zone
field that the reader of the bodies resolves to the offset in effect, both
bodies parse, each timestamp is its reading truncated to whole seconds, and
the first timestamp is less than or equal to the second; they are equal when
both readings fall within the same second. -/
theorem sequential_timestamps_nondecreasing (other : GoTime → String → String)
    (lookupName : String → Int → Option Int) (r1 r2 : Request) (c : Clock GoTime)
    (hwf1 : r1.WellFormed) (hp1 : r1.path = "/time")
    (hwf2 : r2.WellFormed) (hp2 : r2.path = "/time")
    (horder : (c.now c.reads).notAfter (c.now (c.reads + 1)))
    (hyear1 : 0 ≤ (c.now c.reads).year ∧ (c.now c.reads).year ≤ 9999)
    (hzone1 : parseZone lookupName (zoneText (c.now c.reads)) (c.now c.reads).wallSec =
      some (c.now c.reads).zoneOffset)
    (hyear2 : 0 ≤ (c.now (c.reads + 1)).year ∧ (c.now (c.reads + 1)).year ≤ 9999)
    (hzone2 : parseZone lookupName (zoneText (c.now (c.reads + 1)))
      (c.now (c.reads + 1)).wallSec = some (c.now (c.reads + 1)).zoneOffset) :
    ∃ w1 w2 p1 p2,
      (serveAll (goLib other) ⟨[("/time", timeHandler (goLib other) RFC1123)]⟩ [r1, r2] c).1 =
        [w1, w2] ∧
      timestampOf lookupName w1 = some p1 ∧ timestampOf lookupName w2 = some p2 ∧
      p1 = ((c.now c.reads).unixSec, 0) ∧ p2 = ((c.now (c.reads + 1)).unixSec, 0) ∧
      nanosOf p1 ≤ nanosOf p2 ∧
      ((c.now c.reads).unixSec = (c.now (c.reads + 1)).unixSec → p1 = p2) := by
  refine ⟨_, _, _, _, serveAll_two_time (goLib other) r1 r2 c hwf1 hp1 hwf2 hp2, ?_, ?_,
    rfl, rfl, ?_, ?_⟩
  · rw [timestampOf_timeHandler]
    exact parseRFC1123_formatRFC1123 lookupName _ hyear1 hzone1
  · rw [timestampOf_timeHandler]
    exact parseRFC1123_formatRFC1123 lookupName _ hyear2 hzone2
  · simp only [nanosOf]
    rcases horder with h | ⟨h, _⟩ <;> omega
  · intro h
    rw [h]

/-- Witness for the amended C7: the two readings across the end of daylight
saving time, read by a reader in New York. -/
theorem sequential_timestamps_nondecreasing_witness :
    ∃ w1 w2 p1 p2,
      (serveAll (goLib (fun _ _ => "")) ⟨[("/time", timeHandler (goLib (fun _ _ => "")) RFC1123)]⟩
        [getRequest "/time", postTimeRequest] fallBackClock).1 = [w1, w2] ∧
      timestampOf newYorkLookup w1 = some p1 ∧ timestampOf newYorkLookup w2 = some p2 ∧
      p1 = ((fallBackClock.now fallBackClock.reads).unixSec, 0) ∧
      p2 = ((fallBackClock.now (fallBackClock.reads + 1)).unixSec, 0) ∧
      nanosOf p1 ≤ nanosOf p2 ∧
      ((fallBackClock.now fallBackClock.reads).unixSec =
        (fallBackClock.now (fallBackClock.reads + 1)).unixSec → p1 = p2) :=
  sequential_timestamps_nondecreasing (fun _ _ => "") newYorkLookup (getRequest "/time")
    postTimeRequest fallBackClock (by decide) rfl (by decide) rfl (by decide) (by decide)
    (by decide) (by decide) (by decide)

end Theorems

end GoServeMux
